import Mathlib

/-!
Verification of the MiddletonGrangeWeb WordPress-migration pipeline.

This file gives a shallow embedding, in Lean 4, of the pipeline's core
components — the WXR parser's status mapping (`WordPressParser.mapStatus`),
the content cleaner (`ContentCleaner.clean` and its eight pipeline steps),
the media migrator (`MediaMigrator.migrate`, `processAttachment`,
`updateContentUrls`, `getNewUrl`) and the migration orchestrator
(`migrate` in `migrate.js`) — and proves or refutes the spec's claims
about them.

Modelling conventions:
* JavaScript strings are Lean `String`s; the handful of string operations
  the source uses (`startsWith`, `replace` under a `startsWith` guard,
  `split`/`join`, `trim`) are implemented here as structurally recursive
  functions over `List Char`, so that every definition evaluates by
  kernel reduction.
* The DOM is modelled by the mutual inductives `HNode`/`HNodes`
  (elements with an ordered attribute list, text nodes, comment nodes).
  DOM *properties* that reflect content attributes (`href`, `src`, `alt`,
  `loading`) are modelled as reads/writes of the attribute itself; the
  URL normalisation a browser's `href` getter may perform is not
  modelled.  `JSDOM`'s HTML parser and serializer (external library
  code) are modelled by `parseHTML`/`serializeNodes` for well-formed
  fragments.
* Asynchronous I/O (file existence, HTTP download, blob upload) is
  modelled by an explicit per-attachment outcome record; the single
  JS thread makes the stats counters deterministic in those outcomes.
* Bracket reads on plain JS object literals (`statusMap`,
  `widgetConverters`) traverse the prototype chain: a miss on the own
  keys falls through to the truthy `Object.prototype` members
  (`toString`, `constructor`, …), which the models carry explicitly
  (`jsObjGet`/`JsValue`, and the three `proto*Names` cases of
  `runConverter`).
-/

namespace MGWeb

/-! ## String utilities (structurally recursive, kernel-reducible) -/

/-- JavaScript `\s` whitespace class (the members relevant to this
source: space, tab, newline, carriage return, form feed, vertical tab,
no-break space). -/
def isWS (c : Char) : Bool :=
  c = ' ' || c = '\t' || c = '\n' || c = '\r' ||
  c = '\x0c' || c = '\x0b' || c = ' '

/-- Trim of a char list on both ends (JS `String.prototype.trim`). -/
def trimList (l : List Char) : List Char :=
  ((l.dropWhile isWS).reverse.dropWhile isWS).reverse

/-- JS `s.trim()`. -/
def strTrim (s : String) : String := ⟨trimList s.data⟩

/-- JS `s.startsWith(p)`. -/
def strStartsWith (s p : String) : Bool := p.data.isPrefixOf s.data

/-- Substring containment on char lists. -/
def listInfix (p : List Char) : List Char → Bool
  | [] => p.isEmpty
  | c :: t => p.isPrefixOf (c :: t) || listInfix p t

/-- JS `s.includes(p)` / CSS `[src*="p"]` substring containment. -/
def strContains (s p : String) : Bool := listInfix p.data s.data

/-- Drop the first `n` characters of a string. -/
def strDrop (s : String) (n : Nat) : String := ⟨s.data.drop n⟩

/-- Length of a string in characters. -/
def strLen (s : String) : Nat := s.data.length

/-! ## WordPress parser: status mapping

Source: `wp-parser.js`, `WordPressParser.mapStatus` (lines 354–364).
`statusMap` is a plain JS object literal, so the bracket read
`statusMap[wpStatus]` does prototype-chain lookup: a miss on the six
own keys falls through to `Object.prototype`, whose members
(`constructor`, `toString`, `valueOf`, `hasOwnProperty`, …, and the
`__proto__` accessor) are all truthy non-string values, so for those
key strings `statusMap[wpStatus] || 'draft'` returns the inherited
member itself, not `'draft'`.  `JsValue` is the value universe of that
read and `jsObjGet` the read itself (`none` models `undefined`). -/

/-- The `Object.prototype` member names reachable by a bracket read on
a plain object literal. -/
def objectProtoProps : List String :=
  ["constructor", "hasOwnProperty", "isPrototypeOf", "propertyIsEnumerable",
   "toLocaleString", "toString", "valueOf", "__defineGetter__", "__defineSetter__",
   "__lookupGetter__", "__lookupSetter__", "__proto__"]

/-- A value produced by a bracket read on a string-valued object
literal: one of its own string entries, or an inherited
`Object.prototype` member (a function — or the prototype object itself
for `__proto__` — hence never a string and always truthy). -/
inductive JsValue where
  | str (s : String)
  | inherited (name : String)
deriving DecidableEq

/-- JS `obj[key]` on a string-valued object literal: own properties
first, then the `Object.prototype` chain; `none` is `undefined`. -/
def jsObjGet (own : List (String × String)) (k : String) : Option JsValue :=
  match own.lookup k with
  | some v => some (.str v)
  | none => if objectProtoProps.contains k then some (.inherited k) else none

/-- JS truthiness of a looked-up value. -/
def jsTruthy : JsValue → Bool
  | .str s => s ≠ ""
  | .inherited _ => true

def statusMap : List (String × String) :=
  [("publish", "published"),
   ("draft", "draft"),
   ("pending", "draft"),
   ("private", "draft"),
   ("future", "draft"),
   ("trash", "archived")]

/-- `WordPressParser.mapStatus`: `statusMap[wpStatus] || 'draft'`. -/
def mapStatus (wpStatus : String) : JsValue :=
  match jsObjGet statusMap wpStatus with
  | some v => if jsTruthy v then v else .str "draft"
  | none => .str "draft"

/-! ## Media migrator

Source: `media-migrator.js` (`MediaMigrator`).  The parser delivers
attachment ids as numbers (fast-xml-parser's default tag-value parsing
turns `<wp:post_id>7</wp:post_id>` into the number `7`) and source URLs
as strings, so the JS `Map` used for `this.urlMap` holds keys of both
types; `MKey` models that key universe.  Each attachment's network and
filesystem fate (`fileExists`, download success, upload success) is an
explicit `MediaOutcome`; `processAttachment` is the source's
try/catch body rewritten as a pure state transformer on
`(stats, urlMap)`.  The chunked `Promise.all` concurrency only
interleaves increments of the single-threaded counters and writes of
per-attachment-disjoint map keys, so the sequential fold computes the
same final stats and (up to insertion order) the same map. -/

structure Attachment where
  id : Nat
  url : String
  filename : String
deriving DecidableEq

structure MediaOutcome where
  fileExists : Bool
  downloadOk : Bool
  uploadOk : Bool
deriving DecidableEq

/-- Migrator options.  `storage` models `this.storage`: `some bucket`
after `initStorage` ran with a configured `storageBucket`, else `none`.
`yearMonth` stands for the `getYearMonth()` clock read. -/
structure MediaOptions where
  skipExisting : Bool := true
  storage : Option String := none
  yearMonth : String := "1970/01"
deriving DecidableEq

/-- A JS `Map` key: either a string (a source URL) or a number (an
attachment id). -/
inductive MKey where
  | str (s : String)
  | num (n : Nat)
deriving DecidableEq

abbrev UrlMap := List (MKey × String)

/-- `Map.prototype.get`. -/
def mapGet (m : UrlMap) (k : MKey) : Option String :=
  match m with
  | [] => none
  | (k', v) :: t => if k' = k then some v else mapGet t k

/-- `Map.prototype.set`: update the existing entry in place, otherwise
append (JS `Map` preserves insertion order). -/
def mapSet (m : UrlMap) (k : MKey) (v : String) : UrlMap :=
  match m with
  | [] => [(k, v)]
  | (k', v') :: t => if k' = k then (k', v) :: t else (k', v') :: mapSet t k v

structure MediaStats where
  total : Nat := 0
  downloaded : Nat := 0
  uploaded : Nat := 0
  skipped : Nat := 0
  failed : Nat := 0
  errors : List String := []
deriving DecidableEq

/-- Hyphen-run collapsing used by `sanitizeFilename` (the regex replace
collapsing runs of hyphens to a single one); `prev` records whether the
previous emitted char was a hyphen. -/
def collapseHyphensAux : Bool → List Char → List Char
  | _, [] => []
  | prev, c :: t =>
    if c = '-' then
      if prev then collapseHyphensAux true t else '-' :: collapseHyphensAux true t
    else c :: collapseHyphensAux false t

/-- Characters kept by `sanitizeFilename` (`[^a-zA-Z0-9.-]` is replaced). -/
def isSanKeep (c : Char) : Bool :=
  ('a' ≤ c && c ≤ 'z') || ('A' ≤ c && c ≤ 'Z') || ('0' ≤ c && c ≤ '9') ||
  c = '.' || c = '-'

/-- `MediaMigrator.sanitizeFilename`: replace disallowed chars with `-`,
collapse hyphen runs, lower-case. -/
def sanitizeFilename (f : String) : String :=
  ⟨(collapseHyphensAux false (f.data.map fun c => if isSanKeep c then c else '-')).map
    Char.toLower⟩

/-- Segment after the last `/` of a char list. -/
def afterLastSlash (l : List Char) : List Char :=
  l.foldl (fun acc c => if c = '/' then [] else acc ++ [c]) []

/-- `MediaMigrator.extractFilename`: last `/`-segment, query string cut
at `?`; the `Date.now()`-based fallback for an empty result is modelled
by a fixed placeholder name. -/
def extractFilename (url : String) : String :=
  let name := (afterLastSlash url.data).takeWhile (· ≠ '?')
  if name.isEmpty then "file-0" else ⟨name⟩

/-- Basename of the local download path: the sanitized filename (it
contains no `/`, so `path.basename` returns it unchanged). -/
def localName (a : Attachment) : String :=
  sanitizeFilename (if a.filename = "" then extractFilename a.url else a.filename)

/-- `MediaMigrator.getStorageUrl` (skip-existing path; no year/month). -/
def storageUrlOf (bucket base : String) : String :=
  "https://storage.googleapis.com/" ++ bucket ++ "/media/" ++ base

/-- Public URL returned by `MediaMigrator.uploadToStorage`. -/
def uploadUrlOf (bucket yearMonth base : String) : String :=
  "https://storage.googleapis.com/" ++ bucket ++ "/media/" ++ yearMonth ++ "/" ++ base

/-- `MediaMigrator.processAttachment`, as a state transformer on
`(stats, urlMap)`.  Branches mirror the source: no URL → skipped;
skip-existing hit → skipped but the URL map is still populated;
download failure → failed; after a successful download `downloaded` is
incremented, then a configured-storage upload failure is caught and
*also* increments `failed` (without touching the map); on success both
the URL and the id key are set to the same new URL. -/
def processAttachment (o : MediaOptions) (st : MediaStats × UrlMap)
    (ao : Attachment × MediaOutcome) : MediaStats × UrlMap :=
  let s := st.1
  let m := st.2
  let a := ao.1
  let oc := ao.2
  if a.url = "" then
    ({ s with skipped := s.skipped + 1 }, m)
  else
    let base := localName a
    if o.skipExisting && oc.fileExists then
      let newUrl := match o.storage with
        | some b => storageUrlOf b base
        | none => "/images/" ++ base
      ({ s with skipped := s.skipped + 1 },
        mapSet (mapSet m (.str a.url) newUrl) (.num a.id) newUrl)
    else if !oc.downloadOk then
      ({ s with failed := s.failed + 1, errors := s.errors ++ [a.url] }, m)
    else
      let s1 := { s with downloaded := s.downloaded + 1 }
      match o.storage with
      | some b =>
        if oc.uploadOk then
          let newUrl := uploadUrlOf b o.yearMonth base
          ({ s1 with uploaded := s1.uploaded + 1 },
            mapSet (mapSet m (.str a.url) newUrl) (.num a.id) newUrl)
        else
          ({ s1 with failed := s1.failed + 1, errors := s1.errors ++ [a.url] }, m)
      | none =>
        let newUrl := "/images/" ++ base
        (s1, mapSet (mapSet m (.str a.url) newUrl) (.num a.id) newUrl)

/-- `MediaMigrator.migrate`: set `total`, then process every attachment
(the windowed concurrency reduces to a sequential fold for the state,
see the section comment). -/
def migrate (o : MediaOptions) (items : List (Attachment × MediaOutcome)) :
    MediaStats × UrlMap :=
  items.foldl (processAttachment o) ({ total := items.length }, [])

/-- Whether `processAttachment` reaches one of the branches that
populate the URL map (no caught exception, non-empty source URL). -/
def attSuccess (o : MediaOptions) (a : Attachment) (oc : MediaOutcome) : Bool :=
  a.url ≠ "" &&
    (o.skipExisting && oc.fileExists ||
      (oc.downloadOk && (o.storage.isNone || oc.uploadOk)))

/-- The new URL recorded for a successfully processed attachment. -/
def newUrlFor (o : MediaOptions) (a : Attachment) (oc : MediaOutcome) : String :=
  let base := localName a
  if o.skipExisting && oc.fileExists then
    match o.storage with
    | some b => storageUrlOf b base
    | none => "/images/" ++ base
  else
    match o.storage with
    | some b => uploadUrlOf b o.yearMonth base
    | none => "/images/" ++ base

/-- Whether an attachment downloads successfully but then fails its
storage upload (the double-counted branch). -/
def isUploadFail (o : MediaOptions) (ao : Attachment × MediaOutcome) : Bool :=
  ao.1.url ≠ "" && !(o.skipExisting && ao.2.fileExists) && ao.2.downloadOk &&
    o.storage.isSome && !ao.2.uploadOk

/-- Number of download-ok/upload-failed attachments in a batch. -/
def uploadFailures (o : MediaOptions) (items : List (Attachment × MediaOutcome)) : Nat :=
  (items.filter (isUploadFail o)).length

/-- URL-map entries contributed by one attachment. -/
def entriesFor (o : MediaOptions) (ao : Attachment × MediaOutcome) : UrlMap :=
  if attSuccess o ao.1 ao.2 then
    [(.str ao.1.url, newUrlFor o ao.1 ao.2), (.num ao.1.id, newUrlFor o ao.1 ao.2)]
  else []

/-- All keys an attachment batch would write (for stating pairwise
distinctness of urls and ids). -/
def allKeys (items : List (Attachment × MediaOutcome)) : List MKey :=
  (items.map fun ao => [MKey.str ao.1.url, MKey.num ao.1.id]).flatten

/-- String coercion of a map key (JS `String(idOrUrl)`). -/
def mkeyToString : MKey → String
  | .str s => s
  | .num n => toString n

/-- `MediaMigrator.getNewUrl`: `this.urlMap.get(idOrUrl) ||
this.urlMap.get(String(idOrUrl)) || null` (all recorded values are
non-empty strings, hence truthy). -/
def getNewUrl (m : UrlMap) (k : MKey) : Option String :=
  match mapGet m k with
  | some v => some v
  | none => mapGet m (.str (mkeyToString k))

/-- First-occurrence-aware splitting of `s` on `pat`
(JS `s.split(pat)`), fuel-recursive so that it evaluates by kernel
reduction; `fuel ≥ s.length` always suffices.  `pat = []` never matches
here (the one caller guards on keys starting with `http`). -/
def splitChF (pat : List Char) : Nat → List Char → List (List Char)
  | 0, s => [s]
  | _ + 1, [] => [[]]
  | fuel + 1, c :: rest =>
    if !pat.isEmpty && pat.isPrefixOf (c :: rest) then
      [] :: splitChF pat fuel (List.drop pat.length (c :: rest))
    else
      match splitChF pat fuel rest with
      | [] => [[c]]
      | h :: t => (c :: h) :: t

/-- JS `parts.join(rep)`. -/
def joinWith (rep : List Char) : List (List Char) → List Char
  | [] => []
  | [x] => x
  | x :: y :: t => x ++ rep ++ joinWith rep (y :: t)

/-- JS `s.split(pat).join(rep)`: replace every (non-overlapping,
left-to-right) occurrence of `pat` by `rep`. -/
def jsSplitJoin (s pat rep : String) : String :=
  ⟨joinWith rep.data (splitChF pat.data (s.data.length + 1) s.data)⟩

/-- Whether a map entry participates in `updateContentUrls`'s
substitution (`typeof oldUrl === 'string' && oldUrl.startsWith('http')`). -/
def isHttpStrKey (k : MKey) : Bool :=
  match k with
  | .str s => strStartsWith s "http"
  | .num _ => false

/-- `MediaMigrator.updateContentUrls`: fold the URL map over the
content, substituting only string keys that start with `http`. -/
def updateContentUrls (m : UrlMap) (content : String) : String :=
  m.foldl
    (fun acc kv =>
      if isHttpStrKey kv.1 then jsSplitJoin acc (mkeyToString kv.1) kv.2 else acc)
    content

/-! ## Migration orchestrator

Source: `migrate.js`, the `migrate(options)` entry point (lines
218–516).  The model keeps the control flow and stage order of the
source and abstracts each collaborator to the facts the claims need:
whether the input file exists, whether the credential load plus
`admin.initializeApp` succeeds, whether the export has a root
`channel` (else the parser throws), and the parsed record counts.
One firebase-admin behaviour matters for the claims: evaluating
`admin.storage()` without an initialized default app throws
("The default Firebase app does not exist"), and the `MediaMigrator`
constructor call evaluates
`options.uploadMedia ? admin.storage().bucket().name : null` — so an
`--upload-media` run whose app was never initialized (failed
credentials, or dry-run from the start, since `initFirebase` is only
called when `!options.dryRun`) rejects at stage 2/5 and the top-level
catch exits non-zero.  Preview files are counted one per page/post
(the parser does not de-duplicate slugs; slug collisions are outside
these claims). -/

structure RunOptions where
  inputFile : Option String := none
  dryRun : Bool := false
  downloadMedia : Bool := false
  uploadMedia : Bool := false
deriving DecidableEq

structure RunEnv where
  inputFileExists : Bool
  credentialsOk : Bool
  xmlValid : Bool
  pages : Nat
  posts : Nat
  menuSections : Nat
  mediaDocs : Nat
deriving DecidableEq

inductive RunError where
  | noInputFile
  | inputFileMissing
  | formatError
  | adminAppMissing
deriving DecidableEq

structure RunReport where
  finalDryRun : Bool
  reportWritten : Bool
  reportPages : Nat
  previewFiles : Nat
  storeWrites : Nat
deriving DecidableEq

/-- The orchestrator `migrate(options)`: argument/input checks, the
credential-failure dry-run downgrade, parse, the media stage (with the
`admin.storage()` crash path), then report + preview artifacts, then
the commit stage which is skipped entirely under dry-run. -/
def runMigrate (env : RunEnv) (opts : RunOptions) : Except RunError RunReport :=
  match opts.inputFile with
  | none => .error .noInputFile
  | some _ =>
    if !env.inputFileExists then .error .inputFileMissing
    else
      let dryRun := if !opts.dryRun && !env.credentialsOk then true else opts.dryRun
      let appInit := !opts.dryRun && env.credentialsOk
      if !env.xmlValid then .error .formatError
      else if (opts.downloadMedia || opts.uploadMedia) && opts.uploadMedia && !appInit then
        .error .adminAppMissing
      else
        let pagesAll := env.pages + env.posts
        .ok {
          finalDryRun := dryRun
          reportWritten := true
          reportPages := pagesAll
          previewFiles := pagesAll
          storeWrites :=
            if dryRun then 0
            else env.menuSections + pagesAll +
              (if opts.uploadMedia then env.mediaDocs else 0) }

/-! ## Content cleaner: DOM model

Source: `content-cleaner.js` (`ContentCleaner`).  The DOM fragment
`JSDOM` builds for `<div id="content">…</div>` is modelled as the
forest of the content div's child nodes.  `HNode`/`HNodes` are a
mutual pair so that every traversal below is plainly structural and
therefore evaluates by kernel reduction.  Attributes are an ordered
association list (serialization order = insertion order, as in jsdom);
reflected element properties (`src`, `alt`, `loading`, `href`,
`className`) are modelled as reads/writes of the corresponding
attribute per the HTML standard. -/

mutual
inductive HNode where
  | elem (tag : String) (attrs : List (String × String)) (children : HNodes)
  | text (s : String)
  | comment (s : String)
deriving DecidableEq
inductive HNodes where
  | nil
  | cons (head : HNode) (tail : HNodes)
deriving DecidableEq
end

def HNodes.append : HNodes → HNodes → HNodes
  | .nil, ys => ys
  | .cons x xs, ys => .cons x (HNodes.append xs ys)

/-- `getAttribute`: first entry with the given name (parser-produced
attribute lists have unique names). -/
def getAttr (attrs : List (String × String)) (k : String) : Option String :=
  match attrs with
  | [] => none
  | (k', v) :: t => if k' == k then some v else getAttr t k

def hasAttr (attrs : List (String × String)) (k : String) : Bool :=
  (getAttr attrs k).isSome

/-- `setAttribute` / reflected-property write: update in place, else
append (a fresh attribute serializes last). -/
def setAttr (attrs : List (String × String)) (k v : String) : List (String × String) :=
  match attrs with
  | [] => [(k, v)]
  | (k', v') :: t => if k' == k then (k', v) :: t else (k', v') :: setAttr t k v

/-- `removeAttribute`. -/
def removeAttr (attrs : List (String × String)) (k : String) : List (String × String) :=
  attrs.filter fun kv => !(kv.1 == k)

/-- Split a char list on whitespace (DOMTokenList parsing). -/
def splitWSAux (acc : List Char) : List Char → List String
  | [] => if acc.isEmpty then [] else [⟨acc.reverse⟩]
  | c :: t =>
    if isWS c then
      if acc.isEmpty then splitWSAux [] t else ⟨acc.reverse⟩ :: splitWSAux [] t
    else splitWSAux (c :: acc) t

/-- Keep the first occurrence of each string (DOMTokenList is an
ordered set). -/
def dedupFirst (seen : List String) : List String → List String
  | [] => []
  | s :: t => if seen.contains s then dedupFirst seen t else s :: dedupFirst (s :: seen) t

/-- `element.classList` as a token list. -/
def classTokens (attrs : List (String × String)) : List String :=
  match getAttr attrs "class" with
  | none => []
  | some s => dedupFirst [] (splitWSAux [] s.data)

def hasClassToken (attrs : List (String × String)) (c : String) : Bool :=
  (classTokens attrs).contains c

/-- CSS `.c` class selector on a node. -/
def hasClass (c : String) (n : HNode) : Bool :=
  match n with
  | .elem _ attrs _ => hasClassToken attrs c
  | _ => false

/-- CSS type selector on a node. -/
def tagIs (t : String) (n : HNode) : Bool :=
  match n with
  | .elem tag _ _ => tag == t
  | _ => false

/-- `Node.textContent` of a forest: concatenation of all text-node
descendants (comments excluded). -/
def textContentL : HNodes → String
  | .nil => ""
  | .cons (.elem _ _ cs) t => textContentL cs ++ textContentL t
  | .cons (.text s) t => s ++ textContentL t
  | .cons (.comment _) t => textContentL t

/-- `element.textContent`. -/
def textContentOf (n : HNode) : String :=
  match n with
  | .elem _ _ cs => textContentL cs
  | .text s => s
  | .comment s => s

/-- Children to install for `el.textContent = s` (the empty string
installs no child). -/
def textChildren (s : String) : HNodes :=
  if s == "" then .nil else .cons (.text s) .nil

def mediaTags : List String := ["img", "iframe", "video", "audio", "canvas", "svg"]

/-- `el.querySelector('img, iframe, video, audio, canvas, svg')`
applied to a forest of descendants. -/
def hasMediaDesc : HNodes → Bool
  | .nil => false
  | .cons (.elem tag _ cs) t =>
    mediaTags.contains tag || hasMediaDesc cs || hasMediaDesc t
  | .cons _ t => hasMediaDesc t

/-- `querySelector` over a forest: first node in document order
(pre-order) satisfying the predicate. -/
def findFirstP (p : HNode → Bool) : HNodes → Option HNode
  | .nil => none
  | .cons n t =>
    if p n then some n
    else
      match n with
      | .elem _ _ cs =>
        match findFirstP p cs with
        | some r => some r
        | none => findFirstP p t
      | _ => findFirstP p t

/-- `querySelectorAll` over a forest: all nodes in document order. -/
def findAllP (p : HNode → Bool) : HNodes → List HNode
  | .nil => []
  | .cons n t =>
    match n with
    | .elem tag attrs cs =>
      (if p n then [HNode.elem tag attrs cs] else []) ++ findAllP p cs ++ findAllP p t
    | x => (if p x then [x] else []) ++ findAllP p t

/-- Element children of a forest (`div.children`, elements only). -/
def elemChildList : HNodes → List HNode
  | .nil => []
  | .cons (.elem tag attrs cs) t => HNode.elem tag attrs cs :: elemChildList t
  | .cons _ t => elemChildList t

/-! ## Content cleaner: step 1 — remove unwanted elements -/

/-- One `querySelectorAll(sel)` + `remove()` pass: the match list is
static (computed before any removal), so each node is tested against
its state at query time; removing a matched element drops its whole
subtree. -/
def removePass (p : HNode → Bool) : HNodes → HNodes
  | .nil => .nil
  | .cons n t =>
    match n with
    | .elem tag attrs cs =>
      if p (.elem tag attrs cs) then removePass p t
      else .cons (.elem tag attrs (removePass p cs)) (removePass p t)
    | x => .cons x (removePass p t)

/-- TreeWalker comment removal. -/
def removeComments : HNodes → HNodes
  | .nil => .nil
  | .cons (.comment _) t => removeComments t
  | .cons (.elem tag attrs cs) t =>
    .cons (.elem tag attrs (removeComments cs)) (removeComments t)
  | .cons x t => .cons x (removeComments t)

/-- `iframe[src*="sub"]`. -/
def iframeSrcContains (sub : String) (n : HNode) : Bool :=
  match n with
  | .elem tag attrs _ =>
    tag == "iframe" &&
      (match getAttr attrs "src" with
       | some v => strContains v sub
       | none => false)
  | _ => false

/-- `[aria-hidden="true"]:empty` (`:empty` = no child nodes at all). -/
def ariaHiddenEmpty (n : HNode) : Bool :=
  match n with
  | .elem _ attrs cs =>
    (match getAttr attrs "aria-hidden" with
     | some v => v == "true"
     | none => false) &&
      (match cs with
       | .nil => true
       | _ => false)
  | _ => false

/-- `ContentCleaner.removeUnwantedElements`: the eight selector passes
in source order, then the comment sweep. -/
def removeUnwantedElements (l : HNodes) : HNodes :=
  let l := removePass (tagIs "script") l
  let l := removePass (tagIs "style") l
  let l := removePass (tagIs "noscript") l
  let l := removePass (iframeSrcContains "facebook") l
  let l := removePass (iframeSrcContains "twitter") l
  let l := removePass (hasClass "elementor-screen-only") l
  let l := removePass (hasClass "screen-reader-text") l
  let l := removePass ariaHiddenEmpty l
  removeComments l

/-! ## Content cleaner: step 2 — widget converters

Each converter mirrors the source method: it inspects the widget's
descendants and builds a replacement (`none` = the JS `null` return,
element preserved).  `el.textContent = s` installs a single text node
(none when `s` is empty); `innerHTML` copies install the source
element's children. -/

/-- `convertHeadingWidget`. -/
def convertHeadingWidget (cs : HNodes) : Option HNodes :=
  match findFirstP (hasClass "elementor-heading-title") cs with
  | some (.elem htag _ hcs) =>
    some (.cons (.elem htag [] (textChildren (textContentL hcs))) .nil)
  | _ => none

/-- `convertTextWidget`. -/
def convertTextWidget (cs : HNodes) : Option HNodes :=
  match findFirstP (hasClass "elementor-text-editor") cs with
  | some (.elem _ _ tcs) => some (.cons (.elem "div" [] tcs) .nil)
  | _ => none

/-- `img.getAttribute('data-src') || img.src` (empty attribute values
are falsy). -/
def imgSrcValue (attrs : List (String × String)) : String :=
  match getAttr attrs "data-src" with
  | some v => if v == "" then (getAttr attrs "src").getD "" else v
  | none => (getAttr attrs "src").getD ""

/-- `convertImageWidget`. -/
def convertImageWidget (cs : HNodes) : Option HNodes :=
  match findFirstP (tagIs "img") cs with
  | some (.elem _ iattrs _) =>
    let newImg : HNode :=
      .elem "img" [("src", imgSrcValue iattrs), ("alt", (getAttr iattrs "alt").getD "")] .nil
    let capChildren : HNodes :=
      match findFirstP (fun n => hasClass "widget-image-caption" n || tagIs "figcaption" n) cs with
      | some c =>
        if strTrim (textContentOf c) == "" then .nil
        else .cons (.elem "figcaption" [] (textChildren (strTrim (textContentOf c)))) .nil
      | none => .nil
    some (.cons (.elem "figure" [] (.cons newImg capChildren)) .nil)
  | _ => none

/-- `convertVideoWidget`. -/
def convertVideoWidget (cs : HNodes) : Option HNodes :=
  match findFirstP (tagIs "iframe") cs with
  | some (.elem _ iattrs _) =>
    some (.cons
      (.elem "div" [("class", "video-embed")]
        (.cons (.elem "iframe"
          [("src", (getAttr iattrs "src").getD ""), ("allowfullscreen", ""),
           ("loading", "lazy")] .nil) .nil))
      .nil)
  | _ => none

/-- `convertButtonWidget`. -/
def convertButtonWidget (cs : HNodes) : Option HNodes :=
  match findFirstP (tagIs "a") cs with
  | some (.elem _ lattrs lcs) =>
    let btnText :=
      match findFirstP (hasClass "elementor-button-text") cs with
      | some tEl => textContentOf tEl
      | none => textContentL lcs
    let baseAttrs := [("href", (getAttr lattrs "href").getD ""),
                      ("class", "btn btn-primary")]
    let attrs :=
      match getAttr lattrs "target" with
      | some tv => if tv == "" then baseAttrs else baseAttrs ++ [("target", tv)]
      | none => baseAttrs
    some (.cons (.elem "a" attrs (textChildren btnText)) .nil)
  | _ => none

/-- One `<li>` of `convertIconListWidget`. -/
def iconListItem (item : HNode) : HNode :=
  match item with
  | .elem _ _ ics =>
    let textEl := findFirstP (hasClass "elementor-icon-list-text") ics
    match findFirstP (tagIs "a") ics with
    | some (.elem _ lattrs lcs) =>
      let t := match textEl with
        | some tEl => textContentOf tEl
        | none => textContentL lcs
      .elem "li" []
        (.cons (.elem "a" [("href", (getAttr lattrs "href").getD "")] (textChildren t)) .nil)
    | _ =>
      match textEl with
      | some tEl => .elem "li" [] (textChildren (textContentOf tEl))
      | none => .elem "li" [] .nil
  | _ => .elem "li" [] .nil

def HNodes.ofList : List HNode → HNodes
  | [] => .nil
  | x :: t => .cons x (HNodes.ofList t)

/-- `convertIconListWidget`. -/
def convertIconListWidget (cs : HNodes) : Option HNodes :=
  match findAllP (hasClass "elementor-icon-list-item") cs with
  | [] => none
  | items =>
    some (.cons (.elem "ul" [] (HNodes.ofList (items.map iconListItem))) .nil)

/-- One `<details>` of `convertAccordionWidget`. -/
def accordionItem (item : HNode) : HNode :=
  match item with
  | .elem _ _ ics =>
    let title := findFirstP (hasClass "elementor-accordion-title") ics
    let contentEl := findFirstP (hasClass "elementor-accordion-content") ics
    let summaryChildren := textChildren (match title with
      | some tEl => textContentOf tEl
      | none => "")
    let contentChildren : HNodes :=
      match contentEl with
      | some (.elem _ _ ccs) => ccs
      | _ => .nil
    .elem "details" []
      (.cons (.elem "summary" [] summaryChildren)
        (.cons (.elem "div" [] contentChildren) .nil))
  | _ => .elem "details" [] .nil

/-- `convertAccordionWidget` (returns a document fragment: one
`<details>` per accordion item, spliced in place by `replaceWith`). -/
def convertAccordionWidget (cs : HNodes) : Option HNodes :=
  match findAllP (hasClass "elementor-accordion-item") cs with
  | [] => none
  | items => some (HNodes.ofList (items.map accordionItem))

/-- Sections of `convertTabsWidget`: one per tab title, pairing the
i-th title with the i-th content pane when it exists. -/
def tabsSections : List HNode → List HNode → List HNode
  | [], _ => []
  | tab :: ts, conts =>
    let contentPart : HNodes :=
      match conts with
      | c :: _ =>
        (match c with
         | .elem _ _ ccs => .cons (.elem "div" [] ccs) .nil
         | _ => .cons (.elem "div" [] .nil) .nil)
      | [] => .nil
    HNode.elem "section" []
        (.cons (.elem "h3" [] (textChildren (textContentOf tab))) contentPart)
      :: tabsSections ts conts.tail

/-- `convertTabsWidget`. -/
def convertTabsWidget (cs : HNodes) : Option HNodes :=
  match findAllP (hasClass "elementor-tab-title") cs with
  | [] => none
  | tabs =>
    let conts := findAllP (hasClass "elementor-tab-content") cs
    some (.cons
      (.elem "div" [("class", "tabs-content")] (HNodes.ofList (tabsSections tabs conts)))
      .nil)

/-- One `<figure>` of `convertGalleryWidget`. -/
def galleryFigure (img : HNode) : HNode :=
  match img with
  | .elem _ iattrs _ =>
    .elem "figure" []
      (.cons (.elem "img"
        [("src", imgSrcValue iattrs), ("alt", (getAttr iattrs "alt").getD ""),
         ("loading", "lazy")] .nil) .nil)
  | _ => .elem "figure" [] .nil

/-- `convertGalleryWidget`. -/
def convertGalleryWidget (cs : HNodes) : Option HNodes :=
  match findAllP (tagIs "img") cs with
  | [] => none
  | imgs =>
    some (.cons
      (.elem "div" [("class", "image-gallery")] (HNodes.ofList (imgs.map galleryFigure)))
      .nil)

/-- `convertImageBoxWidget` (never returns null). -/
def convertImageBoxWidget (cs : HNodes) : Option HNodes :=
  let figurePart : HNodes :=
    match findFirstP (tagIs "img") cs with
    | some (.elem _ iattrs _) =>
      .cons (.elem "figure" []
        (.cons (.elem "img"
          [("src", imgSrcValue iattrs), ("alt", (getAttr iattrs "alt").getD "")] .nil)
          .nil)) .nil
    | _ => .nil
  let titlePart : HNodes :=
    match findFirstP (hasClass "elementor-image-box-title") cs with
    | some tEl => .cons (.elem "h3" [] (textChildren (textContentOf tEl))) .nil
    | none => .nil
  let descrPart : HNodes :=
    match findFirstP (hasClass "elementor-image-box-description") cs with
    | some dEl => .cons (.elem "p" [] (textChildren (textContentOf dEl))) .nil
    | none => .nil
  some (.cons
    (.elem "article" [("class", "image-box")]
      (figurePart.append (titlePart.append descrPart)))
    .nil)

/-- `widgetType.split('.')[0]`. -/
def widgetTypePrefixOf (w : String) : String :=
  ⟨w.data.takeWhile (· ≠ '.')⟩

/-- `Object.prototype` member names whose inherited function, called
as `this.widgetConverters[type](widget)`, returns a truthy value the
source then passes to `replaceWith`: `toString` and `toLocaleString`
return the string `[object Object]`, and `valueOf` returns the
converters object, which `replaceWith`'s `(Node or DOMString)`
coercion stringifies to the same text — so the widget is replaced by
the text node `[object Object]`. -/
def protoReplacingNames : List String := ["toString", "toLocaleString", "valueOf"]

/-- `Object.prototype` member names whose inherited function call
returns a falsy value (`false` or `undefined`), or — for
`constructor`, where `Object(widget)` returns the widget itself and
`replaceWith(widget)` re-inserts it in place — leaves the widget where
it was: no replacement happens. -/
def protoPreservingNames : List String :=
  ["constructor", "hasOwnProperty", "isPrototypeOf", "propertyIsEnumerable",
   "__lookupGetter__", "__lookupSetter__"]

/-- `Object.prototype` member names for which the source *throws* a
TypeError at the call (`__proto__` is not a function; the two
define-accessor functions reject a non-function second argument),
aborting the whole run.  The total model returns "no replacement" for
them; no claim's theorem relies on that value (C4's amended theorem
excludes these names by hypothesis). -/
def protoThrowingNames : List String :=
  ["__defineGetter__", "__defineSetter__", "__proto__"]

/-- The `this.widgetConverters[type]` dispatch, applied to the
widget's descendant forest.  The converters object is a plain object
literal, so the bracket read falls through to `Object.prototype` on a
miss of the ten own keys: the truthy inherited members pass the
`this.widgetConverters[type]` guard and are *called* (see the three
name lists above).  Outer `none` = the guard is falsy (no own
converter and no inherited member); `some none` = the guard passed but
the call produced no replacement. -/
def runConverter (tp : String) (cs : HNodes) : Option (Option HNodes) :=
  if tp == "heading" then some (convertHeadingWidget cs)
  else if tp == "text-editor" then some (convertTextWidget cs)
  else if tp == "image" then some (convertImageWidget cs)
  else if tp == "video" then some (convertVideoWidget cs)
  else if tp == "button" then some (convertButtonWidget cs)
  else if tp == "icon-list" then some (convertIconListWidget cs)
  else if tp == "accordion" then some (convertAccordionWidget cs)
  else if tp == "tabs" then some (convertTabsWidget cs)
  else if tp == "image-gallery" then some (convertGalleryWidget cs)
  else if tp == "image-box" then some (convertImageBoxWidget cs)
  else if protoReplacingNames.contains tp then
    some (some (.cons (.text "[object Object]") .nil))
  else if protoPreservingNames.contains tp then some none
  else if protoThrowingNames.contains tp then some none
  else none

/-- The conversion decision for one element of
`convertElementorWidgets`: `some repl` exactly when the element is
widget-tagged with a truthy type, the type has a converter and that
converter returns non-null. -/
def applyWidgetConverter (n : HNode) : Option HNodes :=
  match n with
  | .elem _ attrs cs =>
    match getAttr attrs "data-widget_type" with
    | some w =>
      if w == "" then none
      else
        match runConverter (widgetTypePrefixOf w) cs with
        | some r => r
        | none => none
    | none => none
  | _ => none

/-- The widget-conversion loop: the `querySelectorAll` list is static
and `replaceWith` detaches the subtree of a converted widget, so a
nested widget inside a converted one is never converted (its
`replaceWith` on a detached node is a no-op) while a widget inside a
*preserved* (null-converted) widget still converts; equivalently, a
top-down traversal that does not descend into converter output. -/
def convertWidgetsPhase : HNodes → HNodes
  | .nil => .nil
  | .cons n t =>
    match n with
    | .elem tag attrs cs =>
      match applyWidgetConverter (.elem tag attrs cs) with
      | some repl => repl.append (convertWidgetsPhase t)
      | none => .cons (.elem tag attrs (convertWidgetsPhase cs)) (convertWidgetsPhase t)
    | x => .cons x (convertWidgetsPhase t)

def isWrapperElem (n : HNode) : Bool :=
  hasClass "elementor-section" n || hasClass "elementor-column" n ||
    hasClass "elementor-widget-wrap" n

/-- The section/column/widget-wrap unwrap at the end of
`convertElementorWidgets` (static list + `unwrapElement` = full
recursive unwrap). -/
def unwrapWrappers : HNodes → HNodes
  | .nil => .nil
  | .cons n t =>
    match n with
    | .elem tag attrs cs =>
      if isWrapperElem (.elem tag attrs cs) then
        (unwrapWrappers cs).append (unwrapWrappers t)
      else .cons (.elem tag attrs (unwrapWrappers cs)) (unwrapWrappers t)
    | x => .cons x (unwrapWrappers t)

/-- `ContentCleaner.convertElementorWidgets`. -/
def convertElementorWidgets (l : HNodes) : HNodes :=
  unwrapWrappers (convertWidgetsPhase l)

/-! ## Content cleaner: steps 3–7 -/

/-- Cleaner configuration (`ContentCleaner` constructor defaults).
`keepClasses` entries are matched exactly; the source also accepts
regex patterns, but every run relevant to the claims uses the default
empty keep-list. -/
structure CleanerOptions where
  baseUrl : String := ""
  newBaseUrl : String := ""
  keepClasses : List String := []
  removeEmpty : Bool := true
  semanticize : Bool := true
deriving DecidableEq

/-- The options the migration orchestrator passes
(`new ContentCleaner({ removeEmpty: true, semanticize: true })`),
which coincide with the constructor defaults. -/
def defaultOptions : CleanerOptions := {}

def blockElements : List String :=
  ["div", "p", "h1", "h2", "h3", "h4", "h5", "h6", "ul", "ol", "table", "figure",
   "article", "section"]

def hasKeeperClass (keep : List String) (attrs : List (String × String)) : Bool :=
  (classTokens attrs).any fun c => keep.contains c

/-- `div.children.length === 1` with a block-element single child. -/
def singleBlockChild (cs : HNodes) : Bool :=
  match elemChildList cs with
  | [HNode.elem ctag _ _] => blockElements.contains ctag
  | _ => false

/-- `ContentCleaner.unwrapDivs`: the `querySelectorAll('div')` list is
static and in document order (ancestors first), and unwrapping an
element moves its children to its parent without altering any
descendant, so each div's condition is decided on its original
children; equivalently this top-down traversal.  `unwrapElement`
splices *all* child nodes (text nodes included). -/
def unwrapDivs (keep : List String) : HNodes → HNodes
  | .nil => .nil
  | .cons n t =>
    match n with
    | .elem tag attrs cs =>
      if tag == "div" && !hasKeeperClass keep attrs && singleBlockChild cs then
        (unwrapDivs keep cs).append (unwrapDivs keep t)
      else .cons (.elem tag attrs (unwrapDivs keep cs)) (unwrapDivs keep t)
    | x => .cons x (unwrapDivs keep t)

/-- The anchored vendor-class patterns of `classesToRemove`
(`regex.test` of a `^`-anchored pattern = `startsWith`). -/
def shouldRemoveClass (c : String) : Bool :=
  strStartsWith c "wp-" || strStartsWith c "elementor-" || strStartsWith c "e-" ||
  strStartsWith c "attachment-" || strStartsWith c "size-" ||
  strStartsWith c "alignleft" || strStartsWith c "alignright" ||
  strStartsWith c "aligncenter" || strStartsWith c "alignnone" ||
  strStartsWith c "gallery-" || strStartsWith c "widget-" || strStartsWith c "menu-" ||
  strStartsWith c "post-" || strStartsWith c "page-" || strStartsWith c "entry-" ||
  strStartsWith c "hentry" || strStartsWith c "clearfix" || strStartsWith c "has-" ||
  strStartsWith c "is-" || strStartsWith c "block-"

/-- Auto-generated id prefixes removed by `cleanAttributes`. -/
def shouldRemoveId (idv : String) : Bool :=
  strStartsWith idv "elementor-" || strStartsWith idv "wp-" ||
  strStartsWith idv "post-" || strStartsWith idv "page-" ||
  strStartsWith idv "widget-" || strStartsWith idv "menu-"

def joinSpace : List String → String
  | [] => ""
  | [x] => x
  | x :: y :: t => x ++ " " ++ joinSpace (y :: t)

/-- Per-element attribute cleanup of `ContentCleaner.cleanAttributes`:
filter class tokens (vendor patterns removed unless kept), drop
`data-*` except `data-src`, drop `style`, drop auto-generated ids. -/
def cleanAttrsOf (keep : List String) (attrs : List (String × String)) :
    List (String × String) :=
  let a1 :=
    let toks := classTokens attrs
    if toks.isEmpty then attrs
    else
      let kept := toks.filter fun c => !shouldRemoveClass c || keep.contains c
      if kept.isEmpty then removeAttr attrs "class"
      else setAttr attrs "class" (joinSpace kept)
  let a2 := a1.filter fun kv => !(strStartsWith kv.1 "data-" && !(kv.1 == "data-src"))
  let a3 := removeAttr a2 "style"
  match getAttr a3 "id" with
  | some idv => if shouldRemoveId idv then removeAttr a3 "id" else a3
  | none => a3

/-- `ContentCleaner.cleanAttributes` over the tree
(`querySelectorAll('*')`; the per-element edits are independent). -/
def cleanAttributes (keep : List String) : HNodes → HNodes
  | .nil => .nil
  | .cons (.elem tag attrs cs) t =>
    .cons (.elem tag (cleanAttrsOf keep attrs) (cleanAttributes keep cs))
      (cleanAttributes keep t)
  | .cons x t => .cons x (cleanAttributes keep t)

/-- `ContentCleaner.convertUrl`.  `url.replace(baseUrl, newBaseUrl)`
replaces the first occurrence; under the `startsWith` guard that
occurrence is the prefix at index 0, so it equals
`newBaseUrl ++ drop |baseUrl|` (dollar patterns in the replacement
string are not modelled). -/
def convertUrl (o : CleanerOptions) (url : String) : String :=
  if url == "" then url
  else if strStartsWith url o.baseUrl then
    o.newBaseUrl ++ strDrop url (strLen o.baseUrl)
  else if strStartsWith url "/" && !strStartsWith url "//" then
    o.newBaseUrl ++ url
  else url

/-- Attribute rewrite of `fixUrls` for one element: `a[href]` gets its
href converted; `img[src]` gets its src converted and, when a truthy
`data-src` is present, that too. -/
def fixAttrsOf (o : CleanerOptions) (tag : String) (attrs : List (String × String)) :
    List (String × String) :=
  if tag == "a" && hasAttr attrs "href" then
    setAttr attrs "href" (convertUrl o ((getAttr attrs "href").getD ""))
  else if tag == "img" && hasAttr attrs "src" then
    let a1 := setAttr attrs "src" (convertUrl o ((getAttr attrs "src").getD ""))
    match getAttr a1 "data-src" with
    | some dv => if dv == "" then a1 else setAttr a1 "data-src" (convertUrl o dv)
    | none => a1
  else attrs

def fixUrlsRec (o : CleanerOptions) : HNodes → HNodes
  | .nil => .nil
  | .cons (.elem tag attrs cs) t =>
    .cons (.elem tag (fixAttrsOf o tag attrs) (fixUrlsRec o cs)) (fixUrlsRec o t)
  | .cons x t => .cons x (fixUrlsRec o t)

/-- `ContentCleaner.fixUrls`: a no-op unless both base URLs are
configured (non-empty = truthy). -/
def fixUrls (o : CleanerOptions) (l : HNodes) : HNodes :=
  if o.baseUrl == "" || o.newBaseUrl == "" then l else fixUrlsRec o l

/-- `if (!img.alt) img.alt = ''`: an absent alt reflects as the empty
(falsy) string, so the attribute is added; a present empty alt is
rewritten to the same value. -/
def ensureAlt (attrs : List (String × String)) : List (String × String) :=
  match getAttr attrs "alt" with
  | none => attrs ++ [("alt", "")]
  | some _ => attrs

/-- `img.loading = 'lazy'` (reflected content attribute). -/
def setLoadingLazy (attrs : List (String × String)) : List (String × String) :=
  setAttr attrs "loading" "lazy"

/-- `ContentCleaner.semanticize`: every `img` gets a (possibly empty)
`alt` and `loading="lazy"`. -/
def semanticize : HNodes → HNodes
  | .nil => .nil
  | .cons (.elem tag attrs cs) t =>
    if tag == "img" then
      .cons (.elem tag (setLoadingLazy (ensureAlt attrs)) (semanticize cs)) (semanticize t)
    else .cons (.elem tag attrs (semanticize cs)) (semanticize t)
  | .cons x t => .cons x (semanticize t)

def emptyTags : List String :=
  ["p", "div", "span", "li", "ul", "ol", "section", "article"]

/-- `ContentCleaner.removeEmptyElements`.  The source's do/while loop
re-sweeps until no element of `emptyTags` with blank `textContent` and
no media descendant remains.  An element's eligibility never changes
under these removals (a removed subtree contributes only
whitespace text and no media), so the fixed point equals this single
bottom-up sweep. -/
def removeEmptyElements : HNodes → HNodes
  | .nil => .nil
  | .cons (.elem tag attrs cs) t =>
    let cs' := removeEmptyElements cs
    if emptyTags.contains tag && strTrim (textContentL cs') == "" && !hasMediaDesc cs' then
      removeEmptyElements t
    else .cons (.elem tag attrs cs') (removeEmptyElements t)
  | .cons x t => .cons x (removeEmptyElements t)

/-- Steps 1–7 of `ContentCleaner.clean` on the parsed fragment. -/
def cleanNodes (o : CleanerOptions) (l : HNodes) : HNodes :=
  let c1 := removeUnwantedElements l
  let c2 := convertElementorWidgets c1
  let c3 := unwrapDivs o.keepClasses c2
  let c4 := cleanAttributes o.keepClasses c3
  let c5 := fixUrls o c4
  let c6 := if o.semanticize then semanticize c5 else c5
  if o.removeEmpty then removeEmptyElements c6 else c6

/-! ## Content cleaner: step 8 — whitespace normalization

`cleanWhitespace` is four JS regex replacements; each is implemented
with the regexes' leftmost/greedy/global semantics (anchors evaluated
against the original string, scanning resuming after each match). -/

def countNL (l : List Char) : Nat := (l.filter (· == '\n')).length

/-- Suffix of a char list after its last `\n`. -/
def afterLastNL (l : List Char) : List Char :=
  (l.reverse.takeWhile (· ≠ '\n')).reverse

/-- First replacement: collapse a whitespace run containing three or
more newlines.  A match starts at a `\n`, greedily extends to the last
`\n` of the maximal whitespace run, and is replaced by two newlines;
scanning resumes after the match. -/
def collapseNLAux : Nat → List Char → List Char
  | 0, s => s
  | _ + 1, [] => []
  | fuel + 1, c :: t =>
    if c == '\n' then
      let run := (c :: t).takeWhile isWS
      if 3 ≤ countNL run then
        '\n' :: '\n' ::
          collapseNLAux fuel (afterLastNL run ++ (c :: t).drop run.length)
      else c :: collapseNLAux fuel t
    else c :: collapseNLAux fuel t

/-- Second replacement: a `>` followed by whitespace then `<` becomes
`>`, one newline, `<`; scanning resumes after the `<`. -/
def tagGapAux : Nat → List Char → List Char
  | 0, s => s
  | _ + 1, [] => []
  | fuel + 1, c :: t =>
    if c == '>' then
      let ws := t.takeWhile isWS
      if !ws.isEmpty then
        match t.drop ws.length with
        | '<' :: rest => '>' :: '\n' :: '<' :: tagGapAux fuel rest
        | _ => '>' :: tagGapAux fuel t
      else '>' :: tagGapAux fuel t
    else c :: tagGapAux fuel t

/-- Index of the last `\n` in a char list. -/
def lastNLIdx : List Char → Option Nat
  | [] => none
  | x :: t =>
    match lastNLIdx t with
    | some j => some (j + 1)
    | none => if x == '\n' then some 0 else none

/-- Third replacement, the multiline trim: at a line start, a
whitespace run is consumed whole by the first alternative; elsewhere
the second alternative consumes the longest whitespace prefix that
ends immediately before a `\n` (or runs to the end of input).
`lineStart` tracks whether the current position follows a `\n` in the
original string (anchors are evaluated on the original). -/
def trimLinesAux : Nat → Bool → List Char → List Char
  | 0, _, l => l
  | _ + 1, _, [] => []
  | fuel + 1, lineStart, c :: t =>
    if isWS c then
      let run := (c :: t).takeWhile isWS
      let rest := (c :: t).drop run.length
      if lineStart then
        trimLinesAux fuel (run.getLast? == some '\n' : Bool) rest
      else if rest.isEmpty then []
      else
        match lastNLIdx run with
        | some j =>
          if 1 ≤ j then
            trimLinesAux fuel ((run.drop (j - 1)).head? == some '\n' : Bool)
              (run.drop j ++ rest)
          else c :: trimLinesAux fuel (c == '\n') t
        | none => c :: trimLinesAux fuel (c == '\n') t
    else c :: trimLinesAux fuel false t

/-- Fourth replacement: strip the leading and the trailing newline
runs. -/
def stripEdgeNL (l : List Char) : List Char :=
  ((l.dropWhile (· == '\n')).reverse.dropWhile (· == '\n')).reverse

/-- `ContentCleaner.cleanWhitespace`. -/
def cleanWhitespace (s : String) : String :=
  let l1 := collapseNLAux (s.data.length + 1) s.data
  let l2 := tagGapAux (l1.length + 1) l1
  let l3 := trimLinesAux (l2.length + 1) true l2
  ⟨stripEdgeNL l3⟩

/-! ## Content cleaner: serializer and parser (jsdom boundary) -/

def voidTags : List String :=
  ["area", "base", "br", "col", "embed", "hr", "img", "input", "link", "meta",
   "source", "track", "wbr"]

def nbspChar : Char := '\u00A0'

def escAttrChars : List Char → List Char
  | [] => []
  | c :: t =>
    (if c == '&' then "&amp;".data
     else if c == '"' then "&quot;".data
     else if c == nbspChar then "&nbsp;".data
     else [c]) ++ escAttrChars t

def escTextChars : List Char → List Char
  | [] => []
  | c :: t =>
    (if c == '&' then "&amp;".data
     else if c == '<' then "&lt;".data
     else if c == '>' then "&gt;".data
     else if c == nbspChar then "&nbsp;".data
     else [c]) ++ escTextChars t

def serializeAttrs (attrs : List (String × String)) : String :=
  match attrs with
  | [] => ""
  | (k, v) :: t => " " ++ k ++ "=\"" ++ ⟨escAttrChars v.data⟩ ++ "\"" ++ serializeAttrs t

/-- The HTML fragment serialization (`content.innerHTML`). -/
def serializeNodes : HNodes → String
  | .nil => ""
  | .cons (.elem tag attrs cs) t =>
    "<" ++ tag ++ serializeAttrs attrs ++ ">" ++
      (if voidTags.contains tag then "" else serializeNodes cs ++ "</" ++ tag ++ ">") ++
      serializeNodes t
  | .cons (.text s) t => (⟨escTextChars s.data⟩ : String) ++ serializeNodes t
  | .cons (.comment s) t => "<!--" ++ s ++ "-->" ++ serializeNodes t

def decodeEntities : List Char → List Char
  | [] => []
  | '&' :: 'a' :: 'm' :: 'p' :: ';' :: t => '&' :: decodeEntities t
  | '&' :: 'l' :: 't' :: ';' :: t => '<' :: decodeEntities t
  | '&' :: 'g' :: 't' :: ';' :: t => '>' :: decodeEntities t
  | '&' :: 'q' :: 'u' :: 'o' :: 't' :: ';' :: t => '"' :: decodeEntities t
  | '&' :: 'n' :: 'b' :: 's' :: 'p' :: ';' :: t => nbspChar :: decodeEntities t
  | c :: t => c :: decodeEntities t

def isNameChar (c : Char) : Bool :=
  c.isAlpha || c.isDigit || c == '-' || c == '_' || c == ':'

/-- Attribute parsing up to and including the closing `>`. -/
def parseAttrsF : Nat → List Char → List (String × String) × List Char
  | 0, l => ([], l)
  | fuel + 1, l =>
    let l1 := l.dropWhile isWS
    match l1 with
    | [] => ([], [])
    | '>' :: t => ([], t)
    | '/' :: t => parseAttrsF fuel t
    | c :: t =>
      let name := (c :: t).takeWhile isNameChar
      if name.isEmpty then parseAttrsF fuel t
      else
        let r1 := ((c :: t).drop name.length).dropWhile isWS
        match r1 with
        | '=' :: r2 =>
          let r3 := r2.dropWhile isWS
          match r3 with
          | '"' :: r4 =>
            let v := r4.takeWhile (· ≠ '"')
            let r5 := (r4.drop v.length).drop 1
            let (as, r6) := parseAttrsF fuel r5
            ((⟨name⟩, ⟨decodeEntities v⟩) :: as, r6)
          | '\'' :: r4 =>
            let v := r4.takeWhile (· ≠ '\'')
            let r5 := (r4.drop v.length).drop 1
            let (as, r6) := parseAttrsF fuel r5
            ((⟨name⟩, ⟨decodeEntities v⟩) :: as, r6)
          | _ =>
            let v := r3.takeWhile fun ch => !isWS ch && ch ≠ '>'
            let (as, r6) := parseAttrsF fuel (r3.drop v.length)
            ((⟨name⟩, ⟨decodeEntities v⟩) :: as, r6)
        | _ =>
          let (as, r6) := parseAttrsF fuel r1
          ((⟨name⟩, "") :: as, r6)

/-- Comment body up to `-->`. -/
def splitCommentF : Nat → List Char → List Char × List Char
  | 0, l => (l, [])
  | _ + 1, [] => ([], [])
  | _ + 1, '-' :: '-' :: '>' :: t => ([], t)
  | fuel + 1, c :: t =>
    let (a, b) := splitCommentF fuel t
    (c :: a, b)

/-- Skip a `</tag>` end tag if present. -/
def skipEndTag (l : List Char) : List Char :=
  match l with
  | '<' :: '/' :: t => (t.dropWhile (· ≠ '>')).drop 1
  | _ => l

/-- Recursive-descent HTML fragment parser (models the jsdom parse of
well-formed markup: tags with quoted attributes, void elements, text
with the five standard entities, comments).  Returns the parsed
siblings and the unconsumed input (stopping at a `</`). -/
def parseNodesF : Nat → List Char → HNodes × List Char
  | 0, l => (.nil, l)
  | _ + 1, [] => (.nil, [])
  | fuel + 1, l =>
    match l with
    | [] => (.nil, [])
    | '<' :: '/' :: t => (.nil, '<' :: '/' :: t)
    | '<' :: '!' :: '-' :: '-' :: t =>
      let (cmt, r1) := splitCommentF (t.length + 1) t
      let (ns, r2) := parseNodesF fuel r1
      (.cons (.comment ⟨cmt⟩) ns, r2)
    | '<' :: c :: t =>
      if c.isAlpha then
        let name := ((c :: t).takeWhile isNameChar).map Char.toLower
        let (attrs, r1) := parseAttrsF ((c :: t).length + 1) ((c :: t).drop name.length)
        if voidTags.contains ⟨name⟩ then
          let (ns, r2) := parseNodesF fuel r1
          (.cons (.elem ⟨name⟩ attrs .nil) ns, r2)
        else
          let (cs, r2) := parseNodesF fuel r1
          let r3 := skipEndTag r2
          let (ns, r4) := parseNodesF fuel r3
          (.cons (.elem ⟨name⟩ attrs cs) ns, r4)
      else
        let (ns, r2) := parseNodesF fuel ('<' :: c :: t).tail
        match ns with
        | .cons (.text s) rest => (.cons (.text ⟨'<' :: s.data⟩) rest, r2)
        | _ => (.cons (.text "<") ns, r2)
    | c :: t =>
      let txt := (c :: t).takeWhile (· ≠ '<')
      let r1 := (c :: t).drop txt.length
      let (ns, r2) := parseNodesF fuel r1
      (.cons (.text ⟨decodeEntities txt⟩) ns, r2)

/-- The jsdom parse of the content fragment. -/
def parseHTML (s : String) : HNodes :=
  (parseNodesF (s.data.length + 1) s.data).1

/-- `ContentCleaner.clean`: the empty/non-string guard, the parse, the
seven DOM steps, serialization, whitespace normalization and the final
trim. -/
def clean (o : CleanerOptions) (html : String) : String :=
  if html == "" then ""
  else strTrim (cleanWhitespace (serializeNodes (cleanNodes o (parseHTML html))))

/-! ## Content cleaner: observers used by the claims -/

/-- Whether every `img` element in a forest carries an `alt` attribute
and `loading="lazy"`. -/
def imgsOkL : HNodes → Bool
  | .nil => true
  | .cons (.elem tag attrs cs) t =>
    (if tag == "img" then
      hasAttr attrs "alt" && (getAttr attrs "loading" == some "lazy")
     else true) && imgsOkL cs && imgsOkL t
  | .cons _ t => imgsOkL t

/-- The URL attribute values `fixUrls` targets, in document order: the
`href` of every `a[href]` and the `src` of every `img[src]`. -/
def urlAttrsL : HNodes → List String
  | .nil => []
  | .cons (.elem tag attrs cs) t =>
    (if tag == "a" && hasAttr attrs "href" then [(getAttr attrs "href").getD ""]
     else if tag == "img" && hasAttr attrs "src" then [(getAttr attrs "src").getD ""]
     else []) ++ urlAttrsL cs ++ urlAttrsL t
  | .cons _ t => urlAttrsL t

/-- Non-empty text with no JS-whitespace characters. -/
def plainText (s : String) : Bool :=
  !s.data.isEmpty && s.data.all fun c => !isWS c

def headingTags : List String := ["p", "h1", "h2", "h3", "h4", "h5", "h6"]

/-- An attribute-less paragraph or heading element holding one plain
text node. -/
def isPlainPara : HNode → Bool
  | .elem tag [] (.cons (.text s) .nil) => headingTags.contains tag && plainText s
  | _ => false

/-- Already-clean content: a sequence of plain paragraph/heading
elements. -/
def plainParas : HNodes → Bool
  | .nil => true
  | .cons n t => isPlainPara n && plainParas t

end MGWeb

namespace MGWeb

/-! ## Helper lemmas: media statistics bookkeeping -/

/-- Effect of one `processAttachment` call on the counters: the sum
`downloaded + skipped + failed` grows by one — by two when the
attachment downloads but its upload fails — `total` is untouched, and
`uploaded ≤ downloaded` is preserved. -/
theorem processAttachment_stats (o : MediaOptions) (s : MediaStats) (m : UrlMap)
    (ao : Attachment × MediaOutcome) :
    (processAttachment o (s, m) ao).1.downloaded + (processAttachment o (s, m) ao).1.skipped +
        (processAttachment o (s, m) ao).1.failed
      = s.downloaded + s.skipped + s.failed + 1 + (if isUploadFail o ao then 1 else 0) ∧
    (processAttachment o (s, m) ao).1.total = s.total ∧
    (processAttachment o (s, m) ao).1.uploaded + s.downloaded
      ≤ s.uploaded + (processAttachment o (s, m) ao).1.downloaded := by
  obtain ⟨a, oc⟩ := ao
  by_cases h1 : a.url = ""
  · refine ⟨?_, ?_, ?_⟩ <;> simp [processAttachment, isUploadFail, h1] <;> omega
  · by_cases h2 : (o.skipExisting && oc.fileExists) = true
    · refine ⟨?_, ?_, ?_⟩ <;> simp [processAttachment, isUploadFail, h1, h2] <;> omega
    · by_cases h3 : oc.downloadOk = true
      · cases hs : o.storage with
        | none =>
          refine ⟨?_, ?_, ?_⟩ <;>
            simp [processAttachment, isUploadFail, h1, h2, h3, hs] <;> omega
        | some b =>
          by_cases h4 : oc.uploadOk = true
          · refine ⟨?_, ?_, ?_⟩ <;>
              simp [processAttachment, isUploadFail, h1, h2, h3, h4, hs] <;> omega
          · refine ⟨?_, ?_, ?_⟩ <;>
              simp [processAttachment, isUploadFail, h1, h2, h3, h4, hs] <;> omega
      · refine ⟨?_, ?_, ?_⟩ <;>
          simp [processAttachment, isUploadFail, h1, h2, h3] <;> omega

/-- Stats bookkeeping over the whole fold in `migrate`. -/
theorem migrate_fold_stats (o : MediaOptions) :
    ∀ (items : List (Attachment × MediaOutcome)) (s : MediaStats) (m : UrlMap),
    (items.foldl (processAttachment o) (s, m)).1.downloaded +
        (items.foldl (processAttachment o) (s, m)).1.skipped +
        (items.foldl (processAttachment o) (s, m)).1.failed
      = s.downloaded + s.skipped + s.failed + items.length + uploadFailures o items ∧
    (items.foldl (processAttachment o) (s, m)).1.total = s.total ∧
    (items.foldl (processAttachment o) (s, m)).1.uploaded + s.downloaded
      ≤ s.uploaded + (items.foldl (processAttachment o) (s, m)).1.downloaded
  | [], s, m => by simp [uploadFailures]
  | ao :: rest, s, m => by
    have h1 := processAttachment_stats o s m ao
    have ih := migrate_fold_stats o rest (processAttachment o (s, m) ao).1
      (processAttachment o (s, m) ao).2
    have hfold : (ao :: rest).foldl (processAttachment o) (s, m)
        = rest.foldl (processAttachment o)
            ((processAttachment o (s, m) ao).1, (processAttachment o (s, m) ao).2) := by
      simp [List.foldl_cons]
    rw [hfold]
    have hct : uploadFailures o (ao :: rest)
        = (if isUploadFail o ao then 1 else 0) + uploadFailures o rest := by
      by_cases h : isUploadFail o ao = true <;> simp +arith [uploadFailures, List.filter, h]
    have e1 := h1.1
    have e2 := h1.2.1
    have e3 := h1.2.2
    have f1 := ih.1
    have f2 := ih.2.1
    have f3 := ih.2.2
    refine ⟨?_, ?_, ?_⟩
    · rw [f1, hct, e1]
      by_cases h : isUploadFail o ao = true <;> simp [h] <;> omega
    · rw [f2, e2]
    · omega

/-! ## Helper lemmas: URL-map characterization -/

theorem mapGet_append (m1 m2 : UrlMap) (k : MKey) :
    mapGet (m1 ++ m2) k = ((mapGet m1 k).rec (mapGet m2 k) fun v => some v) := by
  induction m1 with
  | nil => simp [mapGet]
  | cons kv t ih =>
    by_cases h : kv.1 = k <;> simp [mapGet, h, ih]

theorem mapGet_append_none (m1 m2 : UrlMap) (k : MKey) (h : mapGet m1 k = none) :
    mapGet (m1 ++ m2) k = mapGet m2 k := by
  rw [mapGet_append, h]

theorem mapGet_append_some (m1 m2 : UrlMap) (k : MKey) (v : String)
    (h : mapGet m1 k = some v) :
    mapGet (m1 ++ m2) k = some v := by
  rw [mapGet_append, h]

theorem mapSet_fresh (m : UrlMap) (k : MKey) (v : String) (h : mapGet m k = none) :
    mapSet m k v = m ++ [(k, v)] := by
  induction m with
  | nil => simp [mapSet]
  | cons kv t ih =>
    by_cases hk : kv.1 = k
    · simp [mapGet, hk] at h
    · simp [mapGet, hk] at h
      simp [mapSet, hk, ih h]

theorem allKeys_cons (x : Attachment × MediaOutcome) (rest : List (Attachment × MediaOutcome)) :
    allKeys (x :: rest) = MKey.str x.1.url :: MKey.num x.1.id :: allKeys rest := by
  simp [allKeys]

theorem mem_allKeys_str (ao : Attachment × MediaOutcome)
    (items : List (Attachment × MediaOutcome)) (h : ao ∈ items) :
    MKey.str ao.1.url ∈ allKeys items := by
  simp only [allKeys, List.mem_flatten]
  exact ⟨[MKey.str ao.1.url, MKey.num ao.1.id], List.mem_map_of_mem _ h, by simp⟩

theorem mem_allKeys_num (ao : Attachment × MediaOutcome)
    (items : List (Attachment × MediaOutcome)) (h : ao ∈ items) :
    MKey.num ao.1.id ∈ allKeys items := by
  simp only [allKeys, List.mem_flatten]
  exact ⟨[MKey.str ao.1.url, MKey.num ao.1.id], List.mem_map_of_mem _ h, by simp⟩

/-- One `processAttachment` call appends exactly this attachment's
`entriesFor` block to a map that does not yet contain its keys. -/
theorem processAttachment_map (o : MediaOptions) (s : MediaStats) (m : UrlMap)
    (a : Attachment) (oc : MediaOutcome)
    (hu : mapGet m (.str a.url) = none) (hi : mapGet m (.num a.id) = none) :
    (processAttachment o (s, m) (a, oc)).2 = m ++ entriesFor o (a, oc) := by
  have hstep : ∀ v : String,
      mapSet (mapSet m (.str a.url) v) (.num a.id) v
        = m ++ [(MKey.str a.url, v), (MKey.num a.id, v)] := by
    intro v
    rw [mapSet_fresh m _ v hu]
    rw [mapSet_fresh _ _ v (by
      rw [mapGet_append_none _ _ _ hi]
      simp [mapGet])]
    simp
  by_cases h1 : a.url = ""
  · simp [processAttachment, entriesFor, attSuccess, h1]
  · by_cases h2 : (o.skipExisting && oc.fileExists) = true
    · cases hs : o.storage with
      | none =>
        simp [processAttachment, entriesFor, attSuccess, newUrlFor, h1, h2, hs, hstep]
      | some b =>
        simp [processAttachment, entriesFor, attSuccess, newUrlFor, h1, h2, hs, hstep]
    · by_cases h3 : oc.downloadOk = true
      · cases hs : o.storage with
        | none =>
          simp [processAttachment, entriesFor, attSuccess, newUrlFor, h1, h2, h3, hs, hstep]
        | some b =>
          by_cases h4 : oc.uploadOk = true
          · simp [processAttachment, entriesFor, attSuccess, newUrlFor, h1, h2, h3, h4, hs,
              hstep]
          · simp [processAttachment, entriesFor, attSuccess, newUrlFor, h1, h2, h3, h4, hs]
      · simp [processAttachment, entriesFor, attSuccess, h1, h2, h3]

/-- The fold in `migrate` appends each attachment's `entriesFor` block
in order, provided no key is ever written twice. -/
theorem migrate_fold_map (o : MediaOptions) :
    ∀ (todo : List (Attachment × MediaOutcome)) (s : MediaStats) (m : UrlMap),
    (∀ ao ∈ todo, mapGet m (.str ao.1.url) = none ∧ mapGet m (.num ao.1.id) = none) →
    (allKeys todo).Nodup →
    (todo.foldl (processAttachment o) (s, m)).2 = m ++ (todo.map (entriesFor o)).flatten
  | [], s, m, _, _ => by simp
  | x :: rest, s, m, hfresh, hnd => by
    obtain ⟨hxu, hxi⟩ := hfresh x (by simp)
    have hx := processAttachment_map o s m x.1 x.2 hxu hxi
    rw [allKeys_cons] at hnd
    have hndr : (allKeys rest).Nodup := (List.nodup_cons.mp (List.nodup_cons.mp hnd).2).2
    have hxur : MKey.str x.1.url ∉ allKeys rest := by
      have := (List.nodup_cons.mp hnd).1
      simp only [List.mem_cons] at this
      exact fun hmem => this (Or.inr hmem)
    have hxir : MKey.num x.1.id ∉ allKeys rest :=
      (List.nodup_cons.mp (List.nodup_cons.mp hnd).2).1
    have hfresh' : ∀ ao ∈ rest,
        mapGet (m ++ entriesFor o x) (.str ao.1.url) = none ∧
        mapGet (m ++ entriesFor o x) (.num ao.1.id) = none := by
      intro ao hao
      have hne1 : MKey.str x.1.url ≠ MKey.str ao.1.url := by
        intro hcontra
        exact hxur (hcontra ▸ mem_allKeys_str ao rest hao)
      have hne2 : MKey.num x.1.id ≠ MKey.num ao.1.id := by
        intro hcontra
        exact hxir (hcontra ▸ mem_allKeys_num ao rest hao)
      obtain ⟨hu, hi⟩ := hfresh ao (by simp [hao])
      constructor
      · rw [mapGet_append_none _ _ _ hu]
        by_cases hsucc : attSuccess o x.1 x.2 = true <;>
          simp [entriesFor, mapGet, hsucc, hne1]
      · rw [mapGet_append_none _ _ _ hi]
        by_cases hsucc : attSuccess o x.1 x.2 = true <;>
          simp [entriesFor, mapGet, hsucc, hne2]
    have ih := migrate_fold_map o rest (processAttachment o (s, m) (x.1, x.2)).1
      (m ++ entriesFor o x) hfresh' hndr
    have hfold : ((x :: rest).foldl (processAttachment o) (s, m)).2
        = (rest.foldl (processAttachment o)
            ((processAttachment o (s, m) (x.1, x.2)).1, m ++ entriesFor o x)).2 := by
      rw [List.foldl_cons]
      congr 1
      rw [show processAttachment o (s, m) x = processAttachment o (s, m) (x.1, x.2) from rfl]
      rw [show processAttachment o (s, m) (x.1, x.2)
          = ((processAttachment o (s, m) (x.1, x.2)).1,
             (processAttachment o (s, m) (x.1, x.2)).2) from rfl, hx]
    rw [hfold, ih]
    simp

/-- The final URL map of a `migrate` run on globally-distinct keys. -/
theorem migrate_map_eq (o : MediaOptions) (items : List (Attachment × MediaOutcome))
    (hnd : (allKeys items).Nodup) :
    (migrate o items).2 = (items.map (entriesFor o)).flatten := by
  have h := migrate_fold_map o items { total := items.length } []
    (fun ao _ => ⟨rfl, rfl⟩) hnd
  simpa [migrate] using h

/-- A key matched by no successful attachment is absent from the final
map. -/
theorem mapGet_flatten_none (o : MediaOptions) (k : MKey) :
    ∀ (items : List (Attachment × MediaOutcome)),
    (∀ ao ∈ items, attSuccess o ao.1 ao.2 = true →
      k ≠ .str ao.1.url ∧ k ≠ .num ao.1.id) →
    mapGet ((items.map (entriesFor o)).flatten) k = none
  | [], _ => by simp [mapGet]
  | x :: rest, h => by
    have ih := mapGet_flatten_none o k rest fun ao hao => h ao (by simp [hao])
    by_cases hsucc : attSuccess o x.1 x.2 = true
    · obtain ⟨hne1, hne2⟩ := h x (by simp) hsucc
      simp only [List.map_cons, List.flatten_cons]
      rw [mapGet_append_none]
      · exact ih
      · simp [entriesFor, mapGet, hsucc, Ne.symm hne1, Ne.symm hne2]
    · simp only [List.map_cons, List.flatten_cons]
      rw [mapGet_append_none]
      · exact ih
      · simp [entriesFor, mapGet, hsucc]

/-- A successful attachment's two keys are found in the final map, both
bound to its new URL. -/
theorem mapGet_flatten_some (o : MediaOptions) :
    ∀ (items : List (Attachment × MediaOutcome)) (ao : Attachment × MediaOutcome),
    ao ∈ items → (allKeys items).Nodup → attSuccess o ao.1 ao.2 = true →
    mapGet ((items.map (entriesFor o)).flatten) (.str ao.1.url)
      = some (newUrlFor o ao.1 ao.2) ∧
    mapGet ((items.map (entriesFor o)).flatten) (.num ao.1.id)
      = some (newUrlFor o ao.1 ao.2)
  | [], ao, h, _, _ => absurd h (by simp)
  | x :: rest, ao, hmem, hnd, hsucc => by
    rw [allKeys_cons] at hnd
    rcases List.mem_cons.mp hmem with heq | hrest
    · subst heq
      simp only [List.map_cons, List.flatten_cons]
      constructor
      · exact mapGet_append_some _ _ _ _ (by simp [entriesFor, hsucc, mapGet])
      · exact mapGet_append_some _ _ _ _ (by simp [entriesFor, hsucc, mapGet])
    · have hndr : (allKeys rest).Nodup := (List.nodup_cons.mp (List.nodup_cons.mp hnd).2).2
      have hxur : MKey.str x.1.url ∉ allKeys rest := by
        have := (List.nodup_cons.mp hnd).1
        simp only [List.mem_cons] at this
        exact fun hc => this (Or.inr hc)
      have hxir : MKey.num x.1.id ∉ allKeys rest :=
        (List.nodup_cons.mp (List.nodup_cons.mp hnd).2).1
      have hne1 : MKey.str x.1.url ≠ MKey.str ao.1.url := fun hc =>
        hxur (hc ▸ mem_allKeys_str ao rest hrest)
      have hne2 : MKey.num x.1.id ≠ MKey.num ao.1.id := fun hc =>
        hxir (hc ▸ mem_allKeys_num ao rest hrest)
      have ih := mapGet_flatten_some o rest ao hrest hndr hsucc
      simp only [List.map_cons, List.flatten_cons]
      constructor
      · rw [mapGet_append_none _ _ _ ?_]
        · exact ih.1
        · by_cases hxs : attSuccess o x.1 x.2 = true <;>
            simp [entriesFor, mapGet, hxs, hne1]
      · rw [mapGet_append_none _ _ _ ?_]
        · exact ih.2
        · by_cases hxs : attSuccess o x.1 x.2 = true <;>
            simp [entriesFor, mapGet, hxs, hne2]

theorem nums_sublist :
    ∀ items : List (Attachment × MediaOutcome),
    (items.map fun ao => MKey.num ao.1.id).Sublist (allKeys items)
  | [] => by simp [allKeys]
  | x :: rest => by
    rw [allKeys_cons, List.map_cons]
    exact .cons _ (.cons₂ _ (nums_sublist rest))

theorem strs_sublist :
    ∀ items : List (Attachment × MediaOutcome),
    (items.map fun ao => MKey.str ao.1.url).Sublist (allKeys items)
  | [] => by simp [allKeys]
  | x :: rest => by
    rw [allKeys_cons, List.map_cons]
    exact .cons₂ _ (.cons _ (strs_sublist rest))

theorem entries_flatten_length (o : MediaOptions) :
    ∀ items : List (Attachment × MediaOutcome),
    ((items.map (entriesFor o)).flatten).length
      = 2 * (items.filter fun ao => attSuccess o ao.1 ao.2).length
  | [] => by simp
  | x :: rest => by
    have ih := entries_flatten_length o rest
    by_cases hxs : attSuccess o x.1 x.2 = true <;>
      simp +arith [entriesFor, List.filter, hxs, ih]

end MGWeb

/-! ## Claim C7: URL-map population invariant -/

/-- C7: on a batch whose urls are pairwise distinct, whose ids are
pairwise distinct, and where no id's decimal string collides with a
url (the JS `Map` keys ids as numbers and urls as strings, and
`getNewUrl` falls back to `String(idOrUrl)`), the final URL map holds
exactly two keys per successfully processed attachment — its url and
its id, both bound to the same new URL — and `getNewUrl` returns
`null` (here `none`) on both the url and the id of every attachment
that failed or had no source URL. -/
theorem C7_urlMap_invariant (o : MGWeb.MediaOptions)
    (items : List (MGWeb.Attachment × MGWeb.MediaOutcome))
    (hnd : (MGWeb.allKeys items).Nodup)
    (hcross : ∀ ao ∈ items, ∀ bo ∈ items, toString ao.1.id ≠ bo.1.url) :
    (MGWeb.migrate o items).2.length
      = 2 * (items.filter fun ao => MGWeb.attSuccess o ao.1 ao.2).length ∧
    ∀ ao ∈ items,
      (MGWeb.attSuccess o ao.1 ao.2 = true →
        MGWeb.getNewUrl (MGWeb.migrate o items).2 (.str ao.1.url)
          = some (MGWeb.newUrlFor o ao.1 ao.2) ∧
        MGWeb.getNewUrl (MGWeb.migrate o items).2 (.num ao.1.id)
          = some (MGWeb.newUrlFor o ao.1 ao.2)) ∧
      (MGWeb.attSuccess o ao.1 ao.2 = false →
        MGWeb.getNewUrl (MGWeb.migrate o items).2 (.str ao.1.url) = none ∧
        MGWeb.getNewUrl (MGWeb.migrate o items).2 (.num ao.1.id) = none) := by
  rw [MGWeb.migrate_map_eq o items hnd]
  have hnumInj := List.inj_on_of_nodup_map
    ((MGWeb.nums_sublist items).nodup hnd)
  have hstrInj := List.inj_on_of_nodup_map
    ((MGWeb.strs_sublist items).nodup hnd)
  refine ⟨MGWeb.entries_flatten_length o items, ?_⟩
  intro ao hao
  constructor
  · intro hsucc
    obtain ⟨h1, h2⟩ := MGWeb.mapGet_flatten_some o items ao hao hnd hsucc
    exact ⟨by simp [MGWeb.getNewUrl, h1], by simp [MGWeb.getNewUrl, h2]⟩
  · intro hfail
    have hurl : MGWeb.mapGet ((items.map (MGWeb.entriesFor o)).flatten)
        (.str ao.1.url) = none := by
      apply MGWeb.mapGet_flatten_none
      intro bo hbo hbs
      constructor
      · intro hc
        have heq : ao = bo := hstrInj hao hbo hc
        rw [heq, hbs] at hfail
        simp at hfail
      · intro hc
        exact MGWeb.MKey.noConfusion hc
    have hid : MGWeb.mapGet ((items.map (MGWeb.entriesFor o)).flatten)
        (.num ao.1.id) = none := by
      apply MGWeb.mapGet_flatten_none
      intro bo hbo hbs
      constructor
      · intro hc
        exact MGWeb.MKey.noConfusion hc
      · intro hc
        have heq : ao = bo := hnumInj hao hbo hc
        rw [heq, hbs] at hfail
        simp at hfail
    have hfb : MGWeb.mapGet ((items.map (MGWeb.entriesFor o)).flatten)
        (.str (toString ao.1.id)) = none := by
      apply MGWeb.mapGet_flatten_none
      intro bo hbo _
      constructor
      · intro hc
        have : toString ao.1.id = bo.1.url := by
          injection hc
        exact hcross ao hao bo hbo this
      · intro hc
        exact MGWeb.MKey.noConfusion hc
    refine ⟨?_, ?_⟩
    · simp [MGWeb.getNewUrl, MGWeb.mkeyToString, hurl]
    · simp [MGWeb.getNewUrl, MGWeb.mkeyToString, hid, hfb]

/-- C7 witness: a two-attachment batch (one success, one 404-failure)
with distinct urls and ids: the map holds exactly the successful
attachment's two keys, and lookups on the failed one's url and id miss. -/
theorem C7_urlMap_invariant_witness :
    MGWeb.getNewUrl
        (MGWeb.migrate { storage := none, yearMonth := "2026/10" }
          [({ id := 1, url := "http://w.example/a.png", filename := "a.png" },
            { fileExists := false, downloadOk := true, uploadOk := true }),
           ({ id := 2, url := "http://w.example/b.png", filename := "b.png" },
            { fileExists := false, downloadOk := false, uploadOk := true })]).2
        (.str "http://w.example/b.png") = none ∧
    MGWeb.getNewUrl
        (MGWeb.migrate { storage := none, yearMonth := "2026/10" }
          [({ id := 1, url := "http://w.example/a.png", filename := "a.png" },
            { fileExists := false, downloadOk := true, uploadOk := true }),
           ({ id := 2, url := "http://w.example/b.png", filename := "b.png" },
            { fileExists := false, downloadOk := false, uploadOk := true })]).2
        (.str "http://w.example/a.png") = some "/images/a.png" := by
  have h := C7_urlMap_invariant { storage := none, yearMonth := "2026/10" }
    [({ id := 1, url := "http://w.example/a.png", filename := "a.png" },
      { fileExists := false, downloadOk := true, uploadOk := true }),
     ({ id := 2, url := "http://w.example/b.png", filename := "b.png" },
      { fileExists := false, downloadOk := false, uploadOk := true })]
    (by decide) (by decide)
  constructor
  · exact ((h.2 ({ id := 2, url := "http://w.example/b.png", filename := "b.png" },
        { fileExists := false, downloadOk := false, uploadOk := true })
        (by decide)).2 (by decide)).1
  · have := ((h.2 ({ id := 1, url := "http://w.example/a.png", filename := "a.png" },
        { fileExists := false, downloadOk := true, uploadOk := true })
        (by decide)).1 (by decide)).1
    simpa [MGWeb.newUrlFor, MGWeb.localName, MGWeb.sanitizeFilename] using this

namespace MGWeb

/-! ## Helper lemmas: content substitution -/

theorem splitChF_no_occurrence (pat : List Char) :
    ∀ (fuel : Nat) (s : List Char), s.length ≤ fuel → listInfix pat s = false →
    splitChF pat fuel s = [s]
  | 0, s, _, _ => rfl
  | fuel + 1, [], _, _ => rfl
  | fuel + 1, c :: rest, hlen, hocc => by
    simp only [listInfix, Bool.or_eq_false_iff] at hocc
    have ih := splitChF_no_occurrence pat fuel rest
      (by simp only [List.length_cons] at hlen; omega) hocc.2
    simp [splitChF, hocc.1, ih]

theorem jsSplitJoin_no_occurrence (s pat rep : String)
    (hocc : strContains s pat = false) :
    jsSplitJoin s pat rep = s := by
  unfold jsSplitJoin
  rw [splitChF_no_occurrence pat.data (s.data.length + 1) s.data (Nat.le_succ _) hocc]
  rfl

/-- `updateContentUrls` ignores every entry that is not an
http-prefixed string key. -/
theorem updateContentUrls_filter :
    ∀ (m : UrlMap) (c : String),
    updateContentUrls m c
      = updateContentUrls (m.filter fun kv => isHttpStrKey kv.1) c
  | [], _ => rfl
  | kv :: t, c => by
    by_cases h : isHttpStrKey kv.1 = true <;>
      simp [updateContentUrls, List.filter, h] <;>
      exact updateContentUrls_filter t _

/-- `updateContentUrls` is the identity on content in which no
http-prefixed string key occurs. -/
theorem updateContentUrls_verbatim :
    ∀ (m : UrlMap) (c : String),
    (∀ kv ∈ m, isHttpStrKey kv.1 = true → strContains c (mkeyToString kv.1) = false) →
    updateContentUrls m c = c
  | [], _, _ => rfl
  | kv :: t, c, h => by
    by_cases hk : isHttpStrKey kv.1 = true
    · have hocc := h kv (by simp) hk
      simp only [updateContentUrls, List.foldl_cons, hk, if_true]
      rw [jsSplitJoin_no_occurrence c (mkeyToString kv.1) kv.2 hocc]
      exact updateContentUrls_verbatim t c fun kv' hkv' => h kv' (by simp [hkv'])
    · simp only [updateContentUrls, List.foldl_cons, hk, if_false]
      exact updateContentUrls_verbatim t c fun kv' hkv' => h kv' (by simp [hkv'])

end MGWeb

/-! ## Claim C10: content substitution touches only http string keys -/

/-- C10: `updateContentUrls` substitutes only URL-map keys that are
strings starting with `http` — its result equals the fold over the
http-string entries alone, so numeric attachment-id entries never
modify the content — and content in which no mapped URL occurs as a
substring (for example a page body whose text merely spells out an
attachment id) is returned verbatim. -/
theorem C10_updateContentUrls_httpOnly (m : MGWeb.UrlMap) (c : String) :
    MGWeb.updateContentUrls m c
      = MGWeb.updateContentUrls (m.filter fun kv => MGWeb.isHttpStrKey kv.1) c ∧
    ((∀ kv ∈ m, MGWeb.isHttpStrKey kv.1 = true →
        MGWeb.strContains c (MGWeb.mkeyToString kv.1) = false) →
      MGWeb.updateContentUrls m c = c) :=
  ⟨MGWeb.updateContentUrls_filter m c, MGWeb.updateContentUrls_verbatim m c⟩

/-- C10 witness: a map holding a numeric id key `42` and an http URL
key that does not occur in the body leaves the body `see item 42`
unchanged, even though the body spells out the id. -/
theorem C10_updateContentUrls_httpOnly_witness :
    MGWeb.updateContentUrls
        [(MGWeb.MKey.str "http://w.example/a.png", "/images/a.png"),
         (MGWeb.MKey.num 42, "/images/a.png")]
        "see item 42" = "see item 42" :=
  (C10_updateContentUrls_httpOnly
      [(MGWeb.MKey.str "http://w.example/a.png", "/images/a.png"),
       (MGWeb.MKey.num 42, "/images/a.png")]
      "see item 42").2 (by decide)

/-! ## Claim C3: media statistics conservation -/

/-- C3 counterexample: a single attachment whose download succeeds but
whose storage upload then fails is counted in both `downloaded` and
`failed` (the catch block runs after `downloaded` was already
incremented), so `downloaded + skipped + failed = 2 ≠ 1 = N`, refuting
the claimed conservation law for a batch of `N = 1` attachments. -/
theorem C3_counterexample :
    (MGWeb.migrate { storage := some "bucket", yearMonth := "2026/10" }
        [({ id := 7, url := "http://w.example/a.png", filename := "a.png" },
          { fileExists := false, downloadOk := true, uploadOk := false })]).1
      = { total := 1, downloaded := 1, uploaded := 0, skipped := 0, failed := 1,
          errors := ["http://w.example/a.png"] } ∧
    (1 : Nat) + 0 + 1 ≠ 1 := by
  constructor
  · decide
  · decide

/-- C3 amended: after `migrate` on a batch of `N` attachments,
`downloaded + skipped + failed = N + U`, where `U` counts the
attachments whose download succeeded but whose configured-storage
upload failed (each such attachment is counted both as downloaded and
as failed); in particular the claimed `downloaded + skipped + failed = N`
holds exactly when no upload fails after a successful download.
`uploaded ≤ downloaded` and `total = N` hold unconditionally. -/
theorem C3_amended_stats (o : MGWeb.MediaOptions)
    (items : List (MGWeb.Attachment × MGWeb.MediaOutcome)) :
    (MGWeb.migrate o items).1.downloaded + (MGWeb.migrate o items).1.skipped +
        (MGWeb.migrate o items).1.failed
      = items.length + MGWeb.uploadFailures o items ∧
    (MGWeb.migrate o items).1.uploaded ≤ (MGWeb.migrate o items).1.downloaded ∧
    (MGWeb.migrate o items).1.total = items.length := by
  have h := MGWeb.migrate_fold_stats o items { total := items.length } []
  unfold MGWeb.migrate
  have h1 := h.1
  have h2 := h.2.1
  have h3 := h.2.2
  simp only [] at h1 h2 h3
  refine ⟨?_, ?_, ?_⟩
  · rw [h1]; simp
  · omega
  · rw [h2]

/-! ## Claim C6: status mapping totality -/

/-- C6 counterexample: `statusMap[wpStatus]` is a prototype-chain
lookup, so for a status string naming an `Object.prototype` member the
source returns the truthy inherited member (here
`Object.prototype.toString`, a function), not `'draft'` — refuting
"every string outside that table maps to 'draft'". -/
theorem C6_counterexample :
    MGWeb.mapStatus "toString" = .inherited "toString" ∧
    MGWeb.JsValue.inherited "toString" ≠ .str "draft" := by
  refine ⟨by decide, by decide⟩

/-- C6 amended: `mapStatus` maps `publish` to `published`; each of
`draft`, `pending`, `private`, `future` to `draft`; `trash` to
`archived`; and every string outside that table to `draft` — *except*
the twelve `Object.prototype` member names (`constructor`, `toString`,
`valueOf`, `hasOwnProperty`, …, `__proto__`), for which the bracket
lookup finds the truthy inherited member and returns it (a non-string
JS value) instead of `draft`. -/
theorem C6_amended_mapStatus :
    MGWeb.mapStatus "publish" = .str "published" ∧
    MGWeb.mapStatus "draft" = .str "draft" ∧
    MGWeb.mapStatus "pending" = .str "draft" ∧
    MGWeb.mapStatus "private" = .str "draft" ∧
    MGWeb.mapStatus "future" = .str "draft" ∧
    MGWeb.mapStatus "trash" = .str "archived" ∧
    (∀ s : String,
      s ∉ ["publish", "draft", "pending", "private", "future", "trash"] →
      s ∉ MGWeb.objectProtoProps →
      MGWeb.mapStatus s = .str "draft") ∧
    (∀ s : String, s ∈ MGWeb.objectProtoProps →
      MGWeb.mapStatus s = .inherited s) := by
  refine ⟨by decide, by decide, by decide, by decide, by decide, by decide, ?_, ?_⟩
  · intro s hs hp
    simp only [List.mem_cons, not_or, List.not_mem_nil] at hs
    obtain ⟨h1, h2, h3, h4, h5, h6, -⟩ := hs
    have e1 : (s == "publish") = false := by simpa using h1
    have e2 : (s == "draft") = false := by simpa using h2
    have e3 : (s == "pending") = false := by simpa using h3
    have e4 : (s == "private") = false := by simpa using h4
    have e5 : (s == "future") = false := by simpa using h5
    have e6 : (s == "trash") = false := by simpa using h6
    have hc : MGWeb.objectProtoProps.contains s = false := by simpa using hp
    simp [MGWeb.mapStatus, MGWeb.jsObjGet, MGWeb.statusMap, List.lookup,
      e1, e2, e3, e4, e5, e6, hc, hp]
  · intro s hs
    simp only [MGWeb.objectProtoProps, List.mem_cons, List.not_mem_nil, or_false]
      at hs
    rcases hs with rfl | rfl | rfl | rfl | rfl | rfl | rfl | rfl | rfl | rfl | rfl |
      rfl <;> decide

/-- C6 amended witness: the unrecognized status string `pitched` is
outside both the table and the prototype member names, and maps to
`draft`; the prototype name `constructor` maps to the inherited
member. -/
theorem C6_amended_mapStatus_witness :
    MGWeb.mapStatus "pitched" = .str "draft" ∧
    MGWeb.mapStatus "constructor" = .inherited "constructor" :=
  ⟨C6_amended_mapStatus.2.2.2.2.2.2.1 "pitched" (by decide) (by decide),
   C6_amended_mapStatus.2.2.2.2.2.2.2 "constructor" (by decide)⟩

/-! ## Claim C8: credential-failure degradation -/

/-- C8 counterexample: a run with failed credentials that requests
media migration through the upload path does not degrade to dry-run
and complete — constructing the media migrator evaluates
`admin.storage()` with no initialized app, which throws, so the run
aborts before the clean/report stages (the top-level catch exits 1). -/
theorem C8_counterexample :
    MGWeb.runMigrate
        { inputFileExists := true, credentialsOk := false, xmlValid := true,
          pages := 1, posts := 0, menuSections := 0, mediaDocs := 0 }
        { inputFile := some "export.xml", dryRun := false,
          downloadMedia := true, uploadMedia := true }
      = .error .adminAppMissing := rfl

/-- C8 amended: when the store credentials cannot be initialized, every
run that does not request media *upload* (including download-only media
runs) is switched to dry-run and completes the parse/clean/report
stages with no store write; a run requesting `--upload-media` instead
aborts when the media-migrator construction touches the uninitialized
admin app. -/
theorem C8_amended_credential_degradation (env : MGWeb.RunEnv) (opts : MGWeb.RunOptions)
    (hin : opts.inputFile.isSome = true)
    (hex : env.inputFileExists = true)
    (hxml : env.xmlValid = true)
    (hcred : env.credentialsOk = false)
    (hdry : opts.dryRun = false)
    (hup : opts.uploadMedia = false) :
    MGWeb.runMigrate env opts
      = .ok { finalDryRun := true, reportWritten := true,
              reportPages := env.pages + env.posts,
              previewFiles := env.pages + env.posts,
              storeWrites := 0 } := by
  match hmi : opts.inputFile with
  | none => rw [hmi] at hin; simp at hin
  | some f =>
    simp [MGWeb.runMigrate, hmi, hex, hxml, hcred, hdry, hup]

/-- C8 witness: a credential-less run with `--download-media` on a
valid one-page export degrades to dry-run, writes the report and the
preview, and performs no store write. -/
theorem C8_amended_credential_degradation_witness :
    MGWeb.runMigrate
        { inputFileExists := true, credentialsOk := false, xmlValid := true,
          pages := 1, posts := 0, menuSections := 1, mediaDocs := 0 }
        { inputFile := some "export.xml", dryRun := false,
          downloadMedia := true, uploadMedia := false }
      = .ok { finalDryRun := true, reportWritten := true, reportPages := 1,
              previewFiles := 1, storeWrites := 0 } :=
  C8_amended_credential_degradation
    { inputFileExists := true, credentialsOk := false, xmlValid := true,
      pages := 1, posts := 0, menuSections := 1, mediaDocs := 0 }
    { inputFile := some "export.xml", dryRun := false,
      downloadMedia := true, uploadMedia := false }
    (by decide) (by decide) (by decide) (by decide) (by decide) (by decide)

/-! ## Claim C9: dry-run frame property -/

/-- C9 counterexample: a `--dry-run --upload-media` invocation on a
valid one-page export aborts (the media-migrator construction touches
`admin.storage()`, but `initFirebase` is only called on non-dry runs,
so no app exists), hence neither the JSON report nor any preview file
is written — the artifacts are not produced "on every run regardless
of the dry-run flag", and here it is the dry-run flag itself that
prevents them. -/
theorem C9_counterexample :
    MGWeb.runMigrate
        { inputFileExists := true, credentialsOk := true, xmlValid := true,
          pages := 1, posts := 0, menuSections := 0, mediaDocs := 0 }
        { inputFile := some "export.xml", dryRun := true,
          downloadMedia := false, uploadMedia := true }
      = .error .adminAppMissing := rfl

/-- C9 amended: on every run that parses successfully and does not
request media upload, the JSON migration report and one cleaned-HTML
preview file per page are written whatever the dry-run flag is, and
when dry-run is set the commit stage is skipped entirely, so no
document-store write is performed. -/
theorem C9_amended_dryrun_frame (env : MGWeb.RunEnv) (opts : MGWeb.RunOptions)
    (hin : opts.inputFile.isSome = true)
    (hex : env.inputFileExists = true)
    (hxml : env.xmlValid = true)
    (hup : opts.uploadMedia = false) :
    ∃ r : MGWeb.RunReport,
      MGWeb.runMigrate env opts = .ok r ∧
      r.reportWritten = true ∧
      r.reportPages = env.pages + env.posts ∧
      r.previewFiles = env.pages + env.posts ∧
      (opts.dryRun = true → r.storeWrites = 0) := by
  match hmi : opts.inputFile with
  | none => rw [hmi] at hin; simp at hin
  | some f =>
    cases hdry : opts.dryRun with
    | true =>
      refine ⟨{ finalDryRun := true, reportWritten := true,
                reportPages := env.pages + env.posts,
                previewFiles := env.pages + env.posts, storeWrites := 0 },
        ?_, rfl, rfl, rfl, fun _ => rfl⟩
      simp [MGWeb.runMigrate, hmi, hex, hxml, hup, hdry]
    | false =>
      cases hcred : env.credentialsOk with
      | true =>
        refine ⟨{ finalDryRun := false, reportWritten := true,
                  reportPages := env.pages + env.posts,
                  previewFiles := env.pages + env.posts,
                  storeWrites := env.menuSections + (env.pages + env.posts) },
          ?_, rfl, rfl, rfl, fun hc => Bool.noConfusion hc⟩
        simp [MGWeb.runMigrate, hmi, hex, hxml, hup, hdry, hcred]
      | false =>
        refine ⟨{ finalDryRun := true, reportWritten := true,
                  reportPages := env.pages + env.posts,
                  previewFiles := env.pages + env.posts, storeWrites := 0 },
          ?_, rfl, rfl, rfl, fun _ => rfl⟩
        simp [MGWeb.runMigrate, hmi, hex, hxml, hup, hdry, hcred]

/-- C9 witness: a plain `--dry-run` run on a valid one-page export
writes the report and one preview and performs zero store writes. -/
theorem C9_amended_dryrun_frame_witness :
    ∃ r : MGWeb.RunReport,
      MGWeb.runMigrate
          { inputFileExists := true, credentialsOk := true, xmlValid := true,
            pages := 1, posts := 0, menuSections := 1, mediaDocs := 0 }
          { inputFile := some "export.xml", dryRun := true,
            downloadMedia := false, uploadMedia := false }
        = .ok r ∧
      r.reportWritten = true ∧ r.reportPages = 1 ∧ r.previewFiles = 1 ∧
      r.storeWrites = 0 := by
  obtain ⟨r, h1, h2, h3, h4, h5⟩ := C9_amended_dryrun_frame
    { inputFileExists := true, credentialsOk := true, xmlValid := true,
      pages := 1, posts := 0, menuSections := 1, mediaDocs := 0 }
    { inputFile := some "export.xml", dryRun := true,
      downloadMedia := false, uploadMedia := false }
    (by decide) (by decide) (by decide) (by decide)
  exact ⟨r, h1, h2, h3, h4, h5 rfl⟩

/-! ## Claim C1: cleaning idempotence -/

set_option maxRecDepth 10000

/-- C1 counterexample: `clean` is not idempotent.  On
`<div><p>keep</p><p></p></div>` (default options) the first pass
removes the empty paragraph, leaving a div with a single block child;
only the second pass's `unwrapDivs` then unwraps that div, so
`clean (clean h) ≠ clean h`. -/
theorem C1_counterexample :
    MGWeb.clean MGWeb.defaultOptions "<div><p>keep</p><p></p></div>"
      = "<div><p>keep</p></div>" ∧
    MGWeb.clean MGWeb.defaultOptions
        (MGWeb.clean MGWeb.defaultOptions "<div><p>keep</p><p></p></div>")
      = "<p>keep</p>" ∧
    MGWeb.clean MGWeb.defaultOptions
        (MGWeb.clean MGWeb.defaultOptions "<div><p>keep</p><p></p></div>")
      ≠ MGWeb.clean MGWeb.defaultOptions "<div><p>keep</p><p></p></div>" := by
  refine ⟨by decide, by decide, by decide⟩

/-! ## Claim C4: unknown-widget preservation -/

/-- C4 counterexample, both prongs of the claim.  Null converter: a
widget-tagged `div` whose heading converter finds no
`.elementor-heading-title` (converter returns null) is *not* preserved
unchanged in `clean`'s output — being empty of text and media it is
deleted by the empty-element removal step, so the output is the empty
string.  No registered converter: a widget typed `toString.default`
has no registered converter, yet the prototype-chain lookup
`this.widgetConverters['toString']` finds the truthy inherited
`Object.prototype.toString`, whose call returns `[object Object]`, and
`replaceWith` substitutes the widget with that text instead of
preserving it. -/
theorem C4_counterexample :
    MGWeb.applyWidgetConverter
        (MGWeb.HNode.elem "div" [("data-widget_type", "heading.default")] .nil) = none ∧
    MGWeb.clean MGWeb.defaultOptions "<div data-widget_type=\"heading.default\"></div>"
      = "" ∧
    MGWeb.applyWidgetConverter
        (MGWeb.HNode.elem "div" [("data-widget_type", "toString.default")] .nil)
      = some (.cons (.text "[object Object]") .nil) ∧
    MGWeb.clean MGWeb.defaultOptions "<div data-widget_type=\"toString.default\"></div>"
      = "[object Object]" := by
  refine ⟨by decide, by decide, by decide, by decide⟩

/-! ## Claim C2: URL rewrite totality -/

/-- C2 counterexample: `fixUrls` rewrites only `a[href]` and
`img[src]`/`img[data-src]`; a `src` attribute on any other element is
never rewritten.  With `(oldBase, newBase)` configured, an `<iframe>`
whose `src` starts with the old base passes through `clean` with that
prefix intact, refuting "every href/src attribute value … that starts
with oldBase appears in the output with that prefix replaced". -/
theorem C2_counterexample :
    MGWeb.strStartsWith "http://old.example/x" "http://old.example" = true ∧
    MGWeb.clean
        { baseUrl := "http://old.example", newBaseUrl := "https://new.example",
          keepClasses := [], removeEmpty := true, semanticize := true }
        "<iframe src=\"http://old.example/x\"></iframe>"
      = "<iframe src=\"http://old.example/x\"></iframe>" := by
  refine ⟨by decide, by decide⟩

namespace MGWeb

/-! ## Helper lemmas: attribute operations -/

theorem getAttr_setAttr_self (attrs : List (String × String)) (k v : String) :
    getAttr (setAttr attrs k v) k = some v := by
  induction attrs with
  | nil => simp [setAttr, getAttr]
  | cons kv t ih =>
    obtain ⟨k', v'⟩ := kv
    by_cases h : (k' == k) = true
    · simp [setAttr, getAttr, h]
    · simp [setAttr, getAttr, h, ih]

theorem getAttr_setAttr_ne (attrs : List (String × String)) (k v k2 : String)
    (h : (k == k2) = false) :
    getAttr (setAttr attrs k v) k2 = getAttr attrs k2 := by
  induction attrs with
  | nil =>
    simp only [setAttr, getAttr]
    rw [if_neg (by simp_all)]
  | cons kv t ih =>
    obtain ⟨k', v'⟩ := kv
    by_cases hk : (k' == k) = true
    · have : (k' == k2) = false := by
        have e1 : k' = k := by simpa using hk
        simpa [e1] using h
      simp [setAttr, getAttr, hk, this]
    · by_cases h2 : (k' == k2) = true
      · simp [setAttr, getAttr, hk, h2]
      · simp [setAttr, getAttr, hk, h2, ih]

theorem getAttr_append_right (a b : List (String × String)) (k : String)
    (h : getAttr a k = none) :
    getAttr (a ++ b) k = getAttr b k := by
  induction a with
  | nil => simp
  | cons kv t ih =>
    obtain ⟨k', v'⟩ := kv
    by_cases hk : (k' == k) = true
    · simp [getAttr, hk] at h
    · simp [getAttr, hk] at h
      simp [getAttr, hk, ih h]

theorem hasAttr_ensureAlt (attrs : List (String × String)) :
    hasAttr (ensureAlt attrs) "alt" = true := by
  unfold ensureAlt
  match he : getAttr attrs "alt" with
  | some v => simp [hasAttr, he]
  | none =>
    simp only [hasAttr]
    rw [getAttr_append_right attrs _ _ he]
    simp [getAttr]

theorem hasAttr_ensureAlt_setLoading (attrs : List (String × String)) :
    hasAttr (setLoadingLazy (ensureAlt attrs)) "alt" = true := by
  unfold setLoadingLazy hasAttr
  rw [getAttr_setAttr_ne _ _ _ _ (by decide)]
  exact hasAttr_ensureAlt attrs

theorem getAttr_setLoading (attrs : List (String × String)) :
    getAttr (setLoadingLazy attrs) "loading" = some "lazy" :=
  getAttr_setAttr_self attrs "loading" "lazy"

/-! ## Helper lemmas: the image invariant through steps 6 and 7 -/

theorem imgsOk_semanticize : ∀ l : HNodes, imgsOkL (semanticize l) = true
  | .nil => rfl
  | .cons (.elem tag attrs cs) t => by
    have ihc := imgsOk_semanticize cs
    have iht := imgsOk_semanticize t
    by_cases h : (tag == "img") = true
    · simp [semanticize, imgsOkL, h, ihc, iht, hasAttr_ensureAlt_setLoading,
        getAttr_setLoading]
    · simp [semanticize, imgsOkL, h, ihc, iht]
  | .cons (.text s) t => by
    have iht := imgsOk_semanticize t
    simpa [semanticize, imgsOkL] using iht
  | .cons (.comment s) t => by
    have iht := imgsOk_semanticize t
    simpa [semanticize, imgsOkL] using iht

theorem imgsOk_removeEmpty :
    ∀ l : HNodes, imgsOkL l = true → imgsOkL (removeEmptyElements l) = true
  | .nil, _ => rfl
  | .cons (.elem tag attrs cs) t, h => by
    simp only [imgsOkL, Bool.and_eq_true] at h
    obtain ⟨⟨hA, hcs⟩, ht⟩ := h
    have ihc := imgsOk_removeEmpty cs hcs
    have iht := imgsOk_removeEmpty t ht
    simp only [removeEmptyElements]
    split
    · exact iht
    · by_cases him : (tag == "img") = true
      · simp only [him, if_true] at hA
        simp only [Bool.and_eq_true, beq_iff_eq] at hA
        simp [imgsOkL, him, ihc, iht, hA.1, hA.2]
      · simp [imgsOkL, him, ihc, iht]
  | .cons (.text s) t, h => by
    simp only [imgsOkL] at h
    simpa [removeEmptyElements, imgsOkL] using imgsOk_removeEmpty t h
  | .cons (.comment s) t, h => by
    simp only [imgsOkL] at h
    simpa [removeEmptyElements, imgsOkL] using imgsOk_removeEmpty t h

end MGWeb

/-! ## Claim C5: image attribute postcondition -/

/-- C5: for every parsed fragment, after the cleaning pipeline with
the default options (`semanticize` and `removeEmpty` enabled, as the
orchestrator configures), every `img` element in the output carries an
`alt` attribute (possibly empty) and `loading="lazy"`: step 6 forces
both attributes onto every image, and the only later DOM step, the
empty-element removal, deletes whole subtrees without touching
attributes.  (Serialization then emits each surviving `img` with
exactly these attributes.) -/
theorem C5_img_attributes (l : MGWeb.HNodes) :
    MGWeb.imgsOkL (MGWeb.cleanNodes MGWeb.defaultOptions l) = true :=
  MGWeb.imgsOk_removeEmpty _ (MGWeb.imgsOk_semanticize _)

namespace MGWeb

/-! ## Helper lemmas: URL conversion and the fixUrls traversal -/

theorem strData_ne_nil (s : String) (h : s ≠ "") : s.data ≠ [] := by
  intro hd
  apply h
  cases s with
  | mk d =>
    simp only at hd
    subst hd
    rfl

theorem strStartsWith_empty_left (p : String) (hp : p.data ≠ []) :
    strStartsWith "" p = false := by
  unfold strStartsWith
  rcases hd : p.data with _ | ⟨c, cs⟩
  · exact absurd hd hp
  · simp [List.isPrefixOf]

theorem startsWith_ne_empty (u p : String) (hp : p.data ≠ [])
    (h : strStartsWith u p = true) : (u == "") = false := by
  by_cases hu : u = ""
  · subst hu
    rw [strStartsWith_empty_left p hp] at h
    exact absurd h (by simp)
  · simpa using hu

theorem convertUrl_prefix (o : CleanerOptions) (u : String) (hb : o.baseUrl ≠ "")
    (hu : strStartsWith u o.baseUrl = true) :
    convertUrl o u = o.newBaseUrl ++ strDrop u (strLen o.baseUrl) := by
  have hne := startsWith_ne_empty u o.baseUrl (strData_ne_nil _ hb) hu
  simp [convertUrl, hne, hu]

theorem convertUrl_rootRel (o : CleanerOptions) (u : String)
    (h1 : strStartsWith u o.baseUrl = false) (h2 : strStartsWith u "/" = true)
    (h3 : strStartsWith u "//" = false) :
    convertUrl o u = o.newBaseUrl ++ u := by
  have hne := startsWith_ne_empty u "/" (by simp) h2
  simp [convertUrl, hne, h1, h2, h3]

theorem convertUrl_other (o : CleanerOptions) (u : String)
    (h1 : strStartsWith u o.baseUrl = false) (h2 : strStartsWith u "/" = false) :
    convertUrl o u = u := by
  by_cases hu : u = ""
  · simp [convertUrl, hu]
  · simp [convertUrl, (by simpa using hu : (u == "") = false), h1, h2]

theorem hasAttr_setAttr_self (attrs : List (String × String)) (k v : String) :
    hasAttr (setAttr attrs k v) k = true := by
  simp [hasAttr, getAttr_setAttr_self]

/-- `fixUrlsRec` maps `convertUrl` over exactly the collected URL
attributes. -/
theorem urlAttrs_fixUrlsRec (o : CleanerOptions) :
    ∀ l : HNodes, urlAttrsL (fixUrlsRec o l) = (urlAttrsL l).map (convertUrl o)
  | .nil => rfl
  | .cons (.elem tag attrs cs) t => by
    have ihc := urlAttrs_fixUrlsRec o cs
    have iht := urlAttrs_fixUrlsRec o t
    by_cases ha : (tag == "a" && hasAttr attrs "href") = true
    · have hta : tag = "a" := by
        have := (Bool.and_eq_true _ _).mp ha
        simpa using this.1
      have hha : hasAttr attrs "href" = true := ((Bool.and_eq_true _ _).mp ha).2
      match hu : getAttr attrs "href" with
      | none => rw [hasAttr, hu] at hha; simp at hha
      | some u =>
        subst hta
        simp [fixUrlsRec, fixAttrsOf, urlAttrsL, hu, hha,
          hasAttr_setAttr_self, getAttr_setAttr_self, ihc, iht]
    · by_cases hi : (tag == "img" && hasAttr attrs "src") = true
      · have hti : tag = "img" := by
          have := (Bool.and_eq_true _ _).mp hi
          simpa using this.1
        have hhs : hasAttr attrs "src" = true := ((Bool.and_eq_true _ _).mp hi).2
        match hu : getAttr attrs "src" with
        | none => rw [hasAttr, hu] at hhs; simp at hhs
        | some u =>
          subst hti
          have hne : (("data-src" : String) == "src") = false := by decide
          have key : ∀ a2 : List (String × String),
              getAttr a2 "src" = some (convertUrl o u) →
              urlAttrsL (.cons (.elem "img" a2 (fixUrlsRec o cs)) (fixUrlsRec o t))
                = (urlAttrsL (.cons (.elem "img" attrs cs) t)).map (convertUrl o) := by
            intro a2 h2
            simp [urlAttrsL, h2, hasAttr, hu, hhs, ihc, iht]
          simp only [fixUrlsRec, fixAttrsOf, hu, hhs, Option.getD_some]
          rw [if_neg (by simp), if_pos (by simp)]
          rcases hd : getAttr (setAttr attrs "src" (convertUrl o u)) "data-src" with _ | dv
          · simp only [hd]
            exact key _ (getAttr_setAttr_self attrs "src" _)
          · simp only [hd]
            by_cases hdv : (dv == "") = true
            · simp only [hdv, if_true]
              exact key _ (getAttr_setAttr_self attrs "src" _)
            · rw [if_neg (by simp_all)]
              refine key _ ?_
              rw [getAttr_setAttr_ne _ _ _ _ hne]
              exact getAttr_setAttr_self attrs "src" _
      · simp [fixUrlsRec, fixAttrsOf, urlAttrsL, ha, hi, ihc, iht]
  | .cons (.text s) t => by
    simpa [fixUrlsRec, urlAttrsL] using urlAttrs_fixUrlsRec o t
  | .cons (.comment s) t => by
    simpa [fixUrlsRec, urlAttrsL] using urlAttrs_fixUrlsRec o t

end MGWeb

/-- C2 amended: with both bases configured (non-empty), `fixUrls`
rewrites exactly the `href` of every `a[href]` and the `src` of every
`img[src]` (plus a truthy `img[data-src]`), each through `convertUrl`:
values starting with `oldBase` get that prefix replaced by `newBase`,
root-relative values (`/` but not `//`) get `newBase` prefixed, and
all other values pass through unchanged.  `href`/`src` attributes on
any other element (e.g. `iframe`) are not rewritten at all. -/
theorem C2_amended_fixUrls (o : MGWeb.CleanerOptions) (l : MGWeb.HNodes)
    (hb : o.baseUrl ≠ "") (hn : o.newBaseUrl ≠ "") :
    MGWeb.urlAttrsL (MGWeb.fixUrls o l)
      = (MGWeb.urlAttrsL l).map (MGWeb.convertUrl o) ∧
    (∀ u, MGWeb.strStartsWith u o.baseUrl = true →
      MGWeb.convertUrl o u = o.newBaseUrl ++ MGWeb.strDrop u (MGWeb.strLen o.baseUrl)) ∧
    (∀ u, MGWeb.strStartsWith u o.baseUrl = false →
      MGWeb.strStartsWith u "/" = true → MGWeb.strStartsWith u "//" = false →
      MGWeb.convertUrl o u = o.newBaseUrl ++ u) ∧
    (∀ u, MGWeb.strStartsWith u o.baseUrl = false →
      MGWeb.strStartsWith u "/" = false → MGWeb.convertUrl o u = u) := by
  refine ⟨?_, fun u hu => MGWeb.convertUrl_prefix o u hb hu,
    fun u h1 h2 h3 => MGWeb.convertUrl_rootRel o u h1 h2 h3,
    fun u h1 h2 => MGWeb.convertUrl_other o u h1 h2⟩
  have hbf : (o.baseUrl == "") = false := by simpa using hb
  have hnf : (o.newBaseUrl == "") = false := by simpa using hn
  rw [MGWeb.fixUrls, if_neg (by simp [hbf, hnf])]
  exact MGWeb.urlAttrs_fixUrlsRec o l

/-- C2 amended witness: on a fragment holding a link with an old-base
href, an image with a root-relative src, and an external link, the
collected URL attributes of the `fixUrls` output are exactly the
converted ones (old base replaced, root-relative prefixed, external
untouched). -/
theorem C2_amended_fixUrls_witness :
    MGWeb.urlAttrsL
        (MGWeb.fixUrls
          { baseUrl := "http://old.example", newBaseUrl := "https://new.example",
            keepClasses := [], removeEmpty := true, semanticize := true }
          (.cons (.elem "a" [("href", "http://old.example/about/")] .nil)
            (.cons (.elem "img" [("src", "/a.png")] .nil)
              (.cons (.elem "a" [("href", "https://other.example/")] .nil) .nil))))
      = ["https://new.example/about/", "https://new.example/a.png",
         "https://other.example/"] := by
  have h := (C2_amended_fixUrls
    { baseUrl := "http://old.example", newBaseUrl := "https://new.example",
      keepClasses := [], removeEmpty := true, semanticize := true }
    (.cons (.elem "a" [("href", "http://old.example/about/")] .nil)
      (.cons (.elem "img" [("src", "/a.png")] .nil)
        (.cons (.elem "a" [("href", "https://other.example/")] .nil) .nil)))
    (by decide) (by decide)).1
  rw [h]
  decide

/-- C4 amended: the widget-conversion step leaves in place, tag and
attributes intact (descendants still being processed), every
widget-tagged element on which the source performs no replacement —
i.e. whose conversion attempt comes back empty
(`applyWidgetConverter = none`): a registered converter returning null
(missing expected inner structure), a type name that is neither a
registered converter nor an inherited `Object.prototype` member (the
lookup guard is falsy), or an inherited member whose call returns a
falsy value.  Excluded by hypothesis are the type names where the
source throws (`protoThrowingNames`), and — by `applyWidgetConverter`
being `some` there — the `toString`/`toLocaleString`/`valueOf` names,
where the inherited member *replaces* the widget with the text
`[object Object]` (see the counterexample).  The preserved element is
still not protected from the later pipeline steps: attribute cleanup
strips its `data-widget_type` marker, and empty-element removal
deletes it from `clean`'s output when it has no text or media
content. -/
theorem C4_amended_widget_preserved (tag : String) (attrs : List (String × String))
    (cs : MGWeb.HNodes) (w : String)
    (hw : MGWeb.getAttr attrs "data-widget_type" = some w)
    (hsafe : MGWeb.protoThrowingNames.contains (MGWeb.widgetTypePrefixOf w) = false)
    (hnull : MGWeb.applyWidgetConverter (.elem tag attrs cs) = none)
    (hnw : MGWeb.isWrapperElem (.elem tag attrs cs) = false) :
    MGWeb.convertElementorWidgets (.cons (.elem tag attrs cs) .nil)
      = .cons
          (.elem tag attrs
            (MGWeb.unwrapWrappers (MGWeb.convertWidgetsPhase cs)))
          .nil := by
  have := hw
  have := hsafe
  unfold MGWeb.convertElementorWidgets
  rw [MGWeb.convertWidgetsPhase, hnull]
  have hnw2 : MGWeb.isWrapperElem
      (.elem tag attrs (MGWeb.convertWidgetsPhase cs)) = false := by
    simp only [MGWeb.isWrapperElem, MGWeb.hasClass] at hnw ⊢
    exact hnw
  rw [MGWeb.unwrapWrappers, if_neg (by simp [hnw2])]
  rfl

/-- C4 amended witness: a widget-tagged div of unregistered type
`carousel.default` passes through the conversion step unchanged. -/
theorem C4_amended_widget_preserved_witness :
    MGWeb.convertElementorWidgets
        (.cons (.elem "div" [("data-widget_type", "carousel.default")]
          (.cons (.text "x") .nil)) .nil)
      = .cons (.elem "div" [("data-widget_type", "carousel.default")]
          (.cons (.text "x") .nil)) .nil :=
  C4_amended_widget_preserved "div" [("data-widget_type", "carousel.default")]
    (.cons (.text "x") .nil) "carousel.default" (by decide) (by decide) (by decide)
    (by decide)

namespace MGWeb

/-! ## Helper lemmas: the cleaning pipeline fixes already-clean content -/

theorem isPlainPara_shape (n : HNode) (h : isPlainPara n = true) :
    ∃ tag s, n = .elem tag [] (.cons (.text s) .nil) ∧
      headingTags.contains tag = true ∧ plainText s = true := by
  match n with
  | .elem tag [] (.cons (.text s) .nil) =>
    have h2 : tag ∈ headingTags ∧ plainText s = true := by
      simpa [isPlainPara, Bool.and_eq_true] using h
    exact ⟨tag, s, rfl, by simpa using h2.1, h2.2⟩
  | .elem tag [] .nil => simp [isPlainPara] at h
  | .elem tag [] (.cons (.text s) (.cons y ys)) => simp [isPlainPara] at h
  | .elem tag [] (.cons (.elem t2 a2 c2) ys) => simp [isPlainPara] at h
  | .elem tag [] (.cons (.comment c) ys) => simp [isPlainPara] at h
  | .elem tag (a :: as) cs => simp [isPlainPara] at h
  | .text s => simp [isPlainPara] at h
  | .comment s => simp [isPlainPara] at h

theorem headingTag_cases (tag : String) (h : headingTags.contains tag = true) :
    tag = "p" ∨ tag = "h1" ∨ tag = "h2" ∨ tag = "h3" ∨ tag = "h4" ∨ tag = "h5" ∨
      tag = "h6" := by
  have hm : tag ∈ headingTags := by simpa using h
  simpa [headingTags] using hm

theorem dropWhile_nonWS (m : List Char) (hm : ∀ c ∈ m, isWS c = false) :
    m.dropWhile isWS = m := by
  cases m with
  | nil => rfl
  | cons c t =>
    rw [List.dropWhile_cons_of_neg]
    simp [hm c (by simp)]

theorem trimList_plain (l : List Char) (h : ∀ c ∈ l, isWS c = false) :
    trimList l = l := by
  unfold trimList
  rw [dropWhile_nonWS l h, dropWhile_nonWS l.reverse (by
    intro c hc
    exact h c (by simpa using hc)), List.reverse_reverse]

theorem plainText_facts (s : String) (h : plainText s = true) :
    strTrim s = s ∧ (s == "") = false := by
  simp only [plainText, Bool.and_eq_true, List.all_eq_true] at h
  obtain ⟨hne, hws⟩ := h
  constructor
  · unfold strTrim
    rw [trimList_plain s.data (fun c hc => by simpa using hws c hc)]
  · have hs : s ≠ "" := by
      intro he
      subst he
      simp at hne
    simpa using hs

theorem strAppend_empty (s : String) : s ++ "" = s := by
  cases s with
  | mk d => show String.mk (d ++ []) = String.mk d
            rw [List.append_nil]

theorem textContentL_single (s : String) :
    textContentL (.cons (.text s) .nil) = s := by
  show s ++ "" = s
  exact strAppend_empty s

end MGWeb

namespace MGWeb

theorem removePass_plain (p : HNode → Bool)
    (hp : ∀ tag s, headingTags.contains tag = true → plainText s = true →
      p (.elem tag [] (.cons (.text s) .nil)) = false) :
    ∀ l : HNodes, plainParas l = true → removePass p l = l
  | .nil, _ => rfl
  | .cons n t, h => by
    have h2 : isPlainPara n = true ∧ plainParas t = true := by
      simpa [plainParas, Bool.and_eq_true] using h
    obtain ⟨tag, s, rfl, htag, hs⟩ := isPlainPara_shape n h2.1
    rw [removePass, if_neg (by simp [hp tag s htag hs])]
    rw [show removePass p (.cons (.text s) .nil)
        = HNodes.cons (.text s) (removePass p .nil) from rfl]
    rw [show removePass p .nil = .nil from rfl]
    rw [removePass_plain p hp t h2.2]

theorem removeComments_plain :
    ∀ l : HNodes, plainParas l = true → removeComments l = l
  | .nil, _ => rfl
  | .cons n t, h => by
    have h2 : isPlainPara n = true ∧ plainParas t = true := by
      simpa [plainParas, Bool.and_eq_true] using h
    obtain ⟨tag, s, rfl, htag, hs⟩ := isPlainPara_shape n h2.1
    rw [show removeComments
          (HNodes.cons (.elem tag [] (.cons (.text s) .nil)) t)
        = HNodes.cons (.elem tag [] (removeComments (.cons (.text s) .nil)))
            (removeComments t) from rfl]
    rw [show removeComments (HNodes.cons (.text s) .nil)
        = HNodes.cons (.text s) (removeComments .nil) from rfl]
    rw [show removeComments .nil = .nil from rfl]
    rw [removeComments_plain t h2.2]

theorem removeUnwanted_plain (l : HNodes) (h : plainParas l = true) :
    removeUnwantedElements l = l := by
  unfold removeUnwantedElements
  dsimp only
  rw [removePass_plain (tagIs "script") (by
    intro tag s htag _
    rcases headingTag_cases tag htag with rfl | rfl | rfl | rfl | rfl | rfl | rfl <;>
      simp [tagIs]) l h]
  rw [removePass_plain (tagIs "style") (by
    intro tag s htag _
    rcases headingTag_cases tag htag with rfl | rfl | rfl | rfl | rfl | rfl | rfl <;>
      simp [tagIs]) l h]
  rw [removePass_plain (tagIs "noscript") (by
    intro tag s htag _
    rcases headingTag_cases tag htag with rfl | rfl | rfl | rfl | rfl | rfl | rfl <;>
      simp [tagIs]) l h]
  rw [removePass_plain (iframeSrcContains "facebook") (by
    intro tag s _ _
    simp [iframeSrcContains, getAttr]) l h]
  rw [removePass_plain (iframeSrcContains "twitter") (by
    intro tag s _ _
    simp [iframeSrcContains, getAttr]) l h]
  rw [removePass_plain (hasClass "elementor-screen-only") (by
    intro tag s _ _
    simp [hasClass, hasClassToken, classTokens, getAttr]) l h]
  rw [removePass_plain (hasClass "screen-reader-text") (by
    intro tag s _ _
    simp [hasClass, hasClassToken, classTokens, getAttr]) l h]
  rw [removePass_plain ariaHiddenEmpty (by
    intro tag s _ _
    simp [ariaHiddenEmpty, getAttr]) l h]
  exact removeComments_plain l h

end MGWeb

namespace MGWeb

theorem convertWidgetsPhase_plain :
    ∀ l : HNodes, plainParas l = true → convertWidgetsPhase l = l
  | .nil, _ => rfl
  | .cons n t, h => by
    have h2 : isPlainPara n = true ∧ plainParas t = true := by
      simpa [plainParas, Bool.and_eq_true] using h
    obtain ⟨tag, s, rfl, htag, hs⟩ := isPlainPara_shape n h2.1
    rw [show convertWidgetsPhase
          (HNodes.cons (.elem tag [] (.cons (.text s) .nil)) t)
        = HNodes.cons (.elem tag [] (convertWidgetsPhase (.cons (.text s) .nil)))
            (convertWidgetsPhase t) from rfl]
    rw [show convertWidgetsPhase (HNodes.cons (.text s) .nil)
        = HNodes.cons (.text s) (convertWidgetsPhase .nil) from rfl]
    rw [show convertWidgetsPhase .nil = .nil from rfl]
    rw [convertWidgetsPhase_plain t h2.2]

theorem unwrapWrappers_plain :
    ∀ l : HNodes, plainParas l = true → unwrapWrappers l = l
  | .nil, _ => rfl
  | .cons n t, h => by
    have h2 : isPlainPara n = true ∧ plainParas t = true := by
      simpa [plainParas, Bool.and_eq_true] using h
    obtain ⟨tag, s, rfl, htag, hs⟩ := isPlainPara_shape n h2.1
    rw [unwrapWrappers, if_neg (by
      simp [isWrapperElem, hasClass, hasClassToken, classTokens, getAttr])]
    rw [show unwrapWrappers (HNodes.cons (.text s) .nil)
        = HNodes.cons (.text s) (unwrapWrappers .nil) from rfl]
    rw [show unwrapWrappers .nil = .nil from rfl]
    rw [unwrapWrappers_plain t h2.2]

theorem unwrapDivs_plain :
    ∀ l : HNodes, plainParas l = true → unwrapDivs [] l = l
  | .nil, _ => rfl
  | .cons n t, h => by
    have h2 : isPlainPara n = true ∧ plainParas t = true := by
      simpa [plainParas, Bool.and_eq_true] using h
    obtain ⟨tag, s, rfl, htag, hs⟩ := isPlainPara_shape n h2.1
    rw [unwrapDivs, if_neg (by
      simp [singleBlockChild, elemChildList])]
    rw [show unwrapDivs [] (HNodes.cons (.text s) .nil)
        = HNodes.cons (.text s) (unwrapDivs [] .nil) from rfl]
    rw [show unwrapDivs [] .nil = .nil from rfl]
    rw [unwrapDivs_plain t h2.2]

theorem cleanAttributes_plain :
    ∀ l : HNodes, plainParas l = true → cleanAttributes [] l = l
  | .nil, _ => rfl
  | .cons n t, h => by
    have h2 : isPlainPara n = true ∧ plainParas t = true := by
      simpa [plainParas, Bool.and_eq_true] using h
    obtain ⟨tag, s, rfl, htag, hs⟩ := isPlainPara_shape n h2.1
    rw [show cleanAttributes []
          (HNodes.cons (.elem tag [] (.cons (.text s) .nil)) t)
        = HNodes.cons (.elem tag (cleanAttrsOf [] [])
            (cleanAttributes [] (.cons (.text s) .nil)))
            (cleanAttributes [] t) from rfl]
    rw [show cleanAttrsOf [] [] = [] from by decide]
    rw [show cleanAttributes [] (HNodes.cons (.text s) .nil)
        = HNodes.cons (.text s) (cleanAttributes [] .nil) from rfl]
    rw [show cleanAttributes [] .nil = .nil from rfl]
    rw [cleanAttributes_plain t h2.2]

theorem semanticize_plain :
    ∀ l : HNodes, plainParas l = true → semanticize l = l
  | .nil, _ => rfl
  | .cons n t, h => by
    have h2 : isPlainPara n = true ∧ plainParas t = true := by
      simpa [plainParas, Bool.and_eq_true] using h
    obtain ⟨tag, s, rfl, htag, hs⟩ := isPlainPara_shape n h2.1
    have hni : (tag == "img") = false := by
      rcases headingTag_cases tag htag with rfl | rfl | rfl | rfl | rfl | rfl | rfl <;>
        decide
    rw [semanticize, if_neg (by simp [hni])]
    rw [show semanticize (HNodes.cons (.text s) .nil)
        = HNodes.cons (.text s) (semanticize .nil) from rfl]
    rw [show semanticize .nil = .nil from rfl]
    rw [semanticize_plain t h2.2]

theorem removeEmpty_plain :
    ∀ l : HNodes, plainParas l = true → removeEmptyElements l = l
  | .nil, _ => rfl
  | .cons n t, h => by
    have h2 : isPlainPara n = true ∧ plainParas t = true := by
      simpa [plainParas, Bool.and_eq_true] using h
    obtain ⟨tag, s, rfl, htag, hs⟩ := isPlainPara_shape n h2.1
    obtain ⟨htrim, hne⟩ := plainText_facts s hs
    have hcs : removeEmptyElements (HNodes.cons (.text s) .nil)
        = HNodes.cons (.text s) .nil := by
      rw [show removeEmptyElements (HNodes.cons (.text s) .nil)
          = HNodes.cons (.text s) (removeEmptyElements .nil) from rfl]
      rw [show removeEmptyElements .nil = .nil from rfl]
    rw [removeEmptyElements]
    rw [hcs]
    rw [if_neg (by
      rw [textContentL_single, htrim]
      simp [hne])]
    rw [removeEmpty_plain t h2.2]

/-- The whole DOM pipeline (default options) fixes already-clean
content. -/
theorem cleanNodes_plain_fix (l : HNodes) (h : plainParas l = true) :
    cleanNodes defaultOptions l = l := by
  unfold cleanNodes
  dsimp only
  rw [removeUnwanted_plain l h]
  rw [show convertElementorWidgets l
      = unwrapWrappers (convertWidgetsPhase l) from rfl]
  rw [convertWidgetsPhase_plain l h, unwrapWrappers_plain l h]
  rw [show defaultOptions.keepClasses = [] from rfl]
  rw [unwrapDivs_plain l h, cleanAttributes_plain l h]
  rw [show fixUrls defaultOptions l = l from by
    rw [fixUrls, if_pos (by decide)]]
  rw [show (if defaultOptions.semanticize then semanticize l else l) = semanticize l
      from rfl]
  rw [semanticize_plain l h]
  rw [show (if defaultOptions.removeEmpty then removeEmptyElements l else l)
      = removeEmptyElements l from rfl]
  exact removeEmpty_plain l h

end MGWeb

/-- C1 amended: `clean` is not idempotent on arbitrary input (the
counterexample: pass one's empty-element removal can leave a div with
a single block child that only pass two's `unwrapDivs` unwraps), but on
already-clean content — any sequence of attribute-less paragraph or
heading elements holding plain non-whitespace text — the cleaning
pipeline makes no change at all, so applying it twice equals applying
it once there. -/
theorem C1_amended_idempotent_on_clean_content (l : MGWeb.HNodes)
    (h : MGWeb.plainParas l = true) :
    MGWeb.cleanNodes MGWeb.defaultOptions l = l ∧
    MGWeb.cleanNodes MGWeb.defaultOptions (MGWeb.cleanNodes MGWeb.defaultOptions l)
      = MGWeb.cleanNodes MGWeb.defaultOptions l := by
  have h1 := MGWeb.cleanNodes_plain_fix l h
  exact ⟨h1, by rw [h1, h1]⟩

/-- C1 amended witness: the pipeline fixes the cleaned form
`<p>keep</p>` of the counterexample input. -/
theorem C1_amended_idempotent_witness :
    MGWeb.cleanNodes MGWeb.defaultOptions
        (.cons (.elem "p" [] (.cons (.text "keep") .nil)) .nil)
      = .cons (.elem "p" [] (.cons (.text "keep") .nil)) .nil :=
  (C1_amended_idempotent_on_clean_content
    (.cons (.elem "p" [] (.cons (.text "keep") .nil)) .nil) (by decide)).1
